import Mathlib

/-
Verification of the pokedata deterministic dataset-splitting engine and
dataset-build planner, as a shallow embedding of `pokedata/dataset_splits.py`
and `pokedata/dataset_build.py`.

Modelling conventions:
* Python floats carrying split scores and ratios are modelled as rationals
  (`ℚ`); every score that actually occurs is a dyadic `byte/256` which floats
  represent exactly, and every comparison performed by the code is exact on
  these values.
* Python exceptions are modelled with `Option`/`Except`: a raised exception is
  an `Option.none` or an `Except.error` carrying the data the exception
  message reports.
* `pathlib.Path` values are modelled as their list of components
  (`Path.parts`), with `name`/`stem`/`parent` following the pathlib
  definitions.
* Machine integers do not occur: SHA-256 is computed over `Nat` with explicit
  `% 2^32` reductions.

The file is laid out with all definitions first, followed by all lemmas and
theorems.
-/

namespace Pokedata

/-! ### DatasetSplit, SplitScore and RatioSplitPolicy (dataset_splits.py) -/

/-- The closed enumeration `DatasetSplit` with members in definition order
`TRAIN`, `VAL`, `TEST`. -/
inductive DatasetSplit
  | TRAIN
  | VAL
  | TEST
deriving DecidableEq

/-- Enum iteration order of `DatasetSplit` (Python iterates an `Enum` in
definition order). -/
def splitsList : List DatasetSplit :=
  [DatasetSplit.TRAIN, DatasetSplit.VAL, DatasetSplit.TEST]

/-- The `SplitScore.__post_init__` invariant `0.0 <= score < 1.0`. -/
def validScore (q : ℚ) : Prop := 0 ≤ q ∧ q < 1

instance (q : ℚ) : Decidable (validScore q) := by
  unfold validScore; infer_instance

/-- Model of `SplitScore(score)`: the frozen dataclass constructor validates its
invariant and raises `ValueError` otherwise (modelled as `none`). -/
def mkSplitScore (q : ℚ) : Option ℚ :=
  if 0 ≤ q ∧ q < 1 then some q else none

/-- Model of `RatioSplitPolicy(train, val, test)` — the three ratio fields. -/
structure RatioSplitPolicy where
  train : ℚ
  val : ℚ
  test : ℚ
deriving DecidableEq

/-- The `RatioSplitPolicy.__post_init__` validation
`abs(total - 1.0) < 1e-9`. -/
def ratioPolicyValid (p : RatioSplitPolicy) : Prop :=
  |p.train + p.val + p.test - 1| < 1 / 1000000000

/-- The `_thresholds` tuple derived in `RatioSplitPolicy.__post_init__`:
`((train, TRAIN), (train + val, VAL), (1.0, TEST))`. -/
def thresholds (p : RatioSplitPolicy) : List (ℚ × DatasetSplit) :=
  [(p.train, DatasetSplit.TRAIN),
   (p.train + p.val, DatasetSplit.VAL),
   (1, DatasetSplit.TEST)]

/-- The loop body of `RatioSplitPolicy.split`: return the first threshold
whose limit strictly exceeds the score; falling off the end is the
`RuntimeError("Unreachable")` (modelled as `none`). -/
def splitLoop (score : ℚ) : List (ℚ × DatasetSplit) → Option DatasetSplit
  | [] => none
  | ls :: rest => if score < ls.1 then some ls.2 else splitLoop score rest

/-- Model of `RatioSplitPolicy.split(score)`. -/
def RatioSplitPolicy.split (p : RatioSplitPolicy) (score : ℚ) : Option DatasetSplit :=
  splitLoop score (thresholds p)

/-! ### SHA-256 over byte lists (hashlib.sha256), on `Nat` with `% 2^32` -/

/-- The word modulus `2^32`. -/
def w32 : Nat := 4294967296

/-- The mask `2^32 - 1` used to model 32-bit bitwise complement. -/
def mask32 : Nat := 4294967295

/-- Rotate a 32-bit word right by `n` (for `0 < n < 32` and `x < 2^32`). -/
def rotr32 (n x : Nat) : Nat :=
  Nat.lor (x >>> n) ((x <<< (32 - n)) % w32)

/-- SHA-256 `Ch(x,y,z) = (x ∧ y) ⊕ (¬x ∧ z)`. -/
def shaCh (x y z : Nat) : Nat :=
  Nat.xor (Nat.land x y) (Nat.land (Nat.xor x mask32) z)

/-- SHA-256 `Maj(x,y,z) = (x ∧ y) ⊕ (x ∧ z) ⊕ (y ∧ z)`. -/
def shaMaj (x y z : Nat) : Nat :=
  Nat.xor (Nat.xor (Nat.land x y) (Nat.land x z)) (Nat.land y z)

/-- SHA-256 `Σ₀`. -/
def bigSigma0 (x : Nat) : Nat :=
  Nat.xor (Nat.xor (rotr32 2 x) (rotr32 13 x)) (rotr32 22 x)

/-- SHA-256 `Σ₁`. -/
def bigSigma1 (x : Nat) : Nat :=
  Nat.xor (Nat.xor (rotr32 6 x) (rotr32 11 x)) (rotr32 25 x)

/-- SHA-256 `σ₀`. -/
def smallSigma0 (x : Nat) : Nat :=
  Nat.xor (Nat.xor (rotr32 7 x) (rotr32 18 x)) (x >>> 3)

/-- SHA-256 `σ₁`. -/
def smallSigma1 (x : Nat) : Nat :=
  Nat.xor (Nat.xor (rotr32 17 x) (rotr32 19 x)) (x >>> 10)

/-- The 64 SHA-256 round constants. -/
def shaK : List Nat :=
  [1116352408, 1899447441, 3049323471, 3921009573,
   961987163, 1508970993, 2453635748, 2870763221,
   3624381080, 310598401, 607225278, 1426881987,
   1925078388, 2162078206, 2614888103, 3248222580,
   3835390401, 4022224774, 264347078, 604807628,
   770255983, 1249150122, 1555081692, 1996064986,
   2554220882, 2821834349, 2952996808, 3210313671,
   3336571891, 3584528711, 113926993, 338241895,
   666307205, 773529912, 1294757372, 1396182291,
   1695183700, 1986661051, 2177026350, 2456956037,
   2730485921, 2820302411, 3259730800, 3345764771,
   3516065817, 3600352804, 4094571909, 275423344,
   430227734, 506948616, 659060556, 883997877,
   958139571, 1322822218, 1537002063, 1747873779,
   1955562222, 2024104815, 2227730452, 2361852424,
   2428436474, 2756734187, 3204031479, 3329325298]

/-- The eight 32-bit working variables of the SHA-256 state. -/
structure Hash8 where
  a : Nat
  b : Nat
  c : Nat
  d : Nat
  e : Nat
  f : Nat
  g : Nat
  h : Nat

/-- The SHA-256 initial hash value. -/
def initH : Hash8 :=
  ⟨1779033703,
   3144134277,
   1013904242,
   2773480762,
   1359893119,
   2600822924,
   528734635,
   1541459225⟩

/-- Big-endian bytes (most significant first) of `x`, `k` bytes wide. -/
def toBytesBE : Nat → Nat → List Nat
  | 0, _ => []
  | k + 1, x => (x / 256 ^ k) % 256 :: toBytesBE k x

/-- SHA-256 padding: append `0x80`, zero bytes to 56 mod 64, and the bit
length as an 8-byte big-endian integer. -/
def padMessage (msg : List Nat) : List Nat :=
  msg ++ [128] ++ List.replicate ((119 - msg.length % 64) % 64) 0
      ++ toBytesBE 8 (8 * msg.length)

/-- Group bytes into big-endian 32-bit words. -/
def toWordsBE : List Nat → List Nat
  | b0 :: b1 :: b2 :: b3 :: rest =>
      (((b0 * 256 + b1) * 256 + b2) * 256 + b3) :: toWordsBE rest
  | _ => []

/-- Split a word list into 16-word blocks (`fuel`-driven totalisation; the
fuel `ws.length` in `toBlocks` always suffices). -/
def toBlocksAux : Nat → List Nat → List (List Nat)
  | 0, _ => []
  | _, [] => []
  | fuel + 1, ws => ws.take 16 :: toBlocksAux fuel (ws.drop 16)

/-- Split a word list into 16-word blocks. -/
def toBlocks (ws : List Nat) : List (List Nat) :=
  toBlocksAux ws.length ws

/-- One step of the message-schedule extension: append
`σ₁(w[t-2]) + w[t-7] + σ₀(w[t-15]) + w[t-16] mod 2^32`. -/
def scheduleStep (acc : List Nat) : List Nat :=
  let n := acc.length
  acc ++ [(smallSigma1 (acc.getD (n - 2) 0) + acc.getD (n - 7) 0
          + smallSigma0 (acc.getD (n - 15) 0) + acc.getD (n - 16) 0) % w32]

/-- Extend the 16-word block to the 64-word message schedule. -/
def extendSchedule : Nat → List Nat → List Nat
  | 0, acc => acc
  | k + 1, acc => extendSchedule k (scheduleStep acc)

/-- One SHA-256 compression round, obtaining `(Kₜ, Wₜ)` as a pair. -/
def roundStep (st : Hash8) (kw : Nat × Nat) : Hash8 :=
  let t1 := (st.h + bigSigma1 st.e + shaCh st.e st.f st.g + kw.1 + kw.2) % w32
  let t2 := (bigSigma0 st.a + shaMaj st.a st.b st.c) % w32
  ⟨(t1 + t2) % w32, st.a, st.b, st.c, (st.d + t1) % w32, st.e, st.f, st.g⟩

/-- Compress one 16-word block into the running hash state. -/
def sha256Compress (st : Hash8) (block : List Nat) : Hash8 :=
  let sched := extendSchedule 48 block
  let r := (shaK.zip sched).foldl roundStep st
  ⟨(st.a + r.a) % w32, (st.b + r.b) % w32, (st.c + r.c) % w32,
   (st.d + r.d) % w32, (st.e + r.e) % w32, (st.f + r.f) % w32,
   (st.g + r.g) % w32, (st.h + r.h) % w32⟩

/-- The four big-endian bytes of a 32-bit word. -/
def wordBytes (w : Nat) : List Nat :=
  [(w / 16777216) % 256, (w / 65536) % 256, (w / 256) % 256, w % 256]

/-- Model of `hashlib.sha256(msg).digest()` as a list of 32 bytes. -/
def sha256Bytes (msg : List Nat) : List Nat :=
  let fin := (toBlocks (toWordsBE (padMessage msg))).foldl sha256Compress initH
  wordBytes fin.a ++ wordBytes fin.b ++ wordBytes fin.c ++ wordBytes fin.d
    ++ wordBytes fin.e ++ wordBytes fin.f ++ wordBytes fin.g ++ wordBytes fin.h

/-- UTF-8 encoding of one character (`str.encode("utf-8")`, per character). -/
def utf8EncodeCharB (c : Char) : List Nat :=
  let n := c.toNat
  if n < 128 then [n]
  else if n < 2048 then [192 + n / 64, 128 + n % 64]
  else if n < 65536 then [224 + n / 4096, 128 + (n / 64) % 64, 128 + n % 64]
  else [240 + n / 262144, 128 + (n / 4096) % 64, 128 + (n / 64) % 64,
        128 + n % 64]

/-- UTF-8 encoding of a string (`str.encode("utf-8")`). -/
def utf8Bytes (s : String) : List Nat :=
  (s.data.map utf8EncodeCharB).flatten

/-- Model of `compute_first_hash_byte(stem, seed)`: the first byte of
`sha256(f"{seed}:{stem}".encode("utf-8"))`. -/
def compute_first_hash_byte (stem : String) (seed : Int) : Nat :=
  (sha256Bytes (utf8Bytes (toString seed ++ (":") ++ stem))).headD 0

/-- Model of `compute_hash_score(stem, seed)`: `SplitScore(score=hash_byte / 256.0)`
(the `SplitScore` constructor validates its invariant). -/
def compute_hash_score (stem : String) (seed : Int) : Option ℚ :=
  mkSplitScore ((compute_first_hash_byte stem seed : ℚ) / 256)

/-! ### Paths and records (pathlib.Path, record.py) -/

/-- A filesystem path, modelled as its list of components (`Path.parts`);
the empty list is `Path(".")`. Components are never `"."` or `".."`. -/
structure Path where
  parts : List String
deriving DecidableEq

/-- Index of the last occurrence of `c` in `cs` (`str.rfind`, with `none`
for "not found"). -/
def lastIdxOf (c : Char) (cs : List Char) : Option Nat :=
  (cs.foldl (fun acc ch =>
    (acc.1 + 1, if ch = c then some acc.1 else acc.2)) ((0 : Nat), (none : Option Nat))).2

/-- Model of `PurePath.stem` of a file name: the name without its suffix, where the
suffix starts at the last dot as long as that dot is neither the first nor
the last character (the CPython `pathlib` rule `0 < i < len(name) - 1`). -/
def stemOfName (name : String) : String :=
  match lastIdxOf '.' name.data with
  | some i =>
      if 0 < i ∧ i + 1 < name.data.length then String.mk (name.data.take i)
      else name
  | none => name

/-- Model of `PurePath.suffix` of a file name (see `stemOfName`). -/
def suffixOfName (name : String) : String :=
  match lastIdxOf '.' name.data with
  | some i =>
      if 0 < i ∧ i + 1 < name.data.length then String.mk (name.data.drop i)
      else ("")
  | none => ("")

/-- Model of `Path.name`: the final component (`""` for `Path(".")`). -/
def Path.name (p : Path) : String := p.parts.getLastD ("")

/-- Model of `Path.stem`. -/
def Path.stem (p : Path) : String := stemOfName p.name

/-- Model of `Path.parent`. -/
def Path.parent (p : Path) : Path := ⟨p.parts.dropLast⟩

/-- Model of `path / component`. -/
def pathJoin (p : Path) (s : String) : Path := ⟨p.parts ++ [s]⟩

/-- Model of `Record` (record.py): a paired image path and annotation path. -/
structure Record where
  image_path : Path
  annotation_path : Path
deriving DecidableEq

/-- The `Record.__post_init__` invariant: the two stems agree. -/
def Record.valid (r : Record) : Prop :=
  r.image_path.stem = r.annotation_path.stem

/-- The `Record.stem` property: the stem of the image path. -/
def Record.stem (r : Record) : String := r.image_path.stem

/-! ### Identity extraction (extract_card_identity) -/

/-- Model of `CardIdentity`. -/
structure CardIdentity where
  order_id : String
  certificate_id : String
  orientation : String
deriving DecidableEq

/-- The inclusive code-point ranges of the Unicode decimal digits
(general category Nd, Unicode 14.0.0, as in CPython's `unicodedata`
tables), which is what Python's `re` matches for `\d` on `str` — not just
the ASCII digits. -/
def ndRanges : List (Nat × Nat) :=
  [(48, 57), (1632, 1641), (1776, 1785),
   (1984, 1993), (2406, 2415), (2534, 2543),
   (2662, 2671), (2790, 2799), (2918, 2927),
   (3046, 3055), (3174, 3183), (3302, 3311),
   (3430, 3439), (3558, 3567), (3664, 3673),
   (3792, 3801), (3872, 3881), (4160, 4169),
   (4240, 4249), (6112, 6121), (6160, 6169),
   (6470, 6479), (6608, 6617), (6784, 6793),
   (6800, 6809), (6992, 7001), (7088, 7097),
   (7232, 7241), (7248, 7257), (42528, 42537),
   (43216, 43225), (43264, 43273), (43472, 43481),
   (43504, 43513), (43600, 43609), (44016, 44025),
   (65296, 65305), (66720, 66729), (68912, 68921),
   (69734, 69743), (69872, 69881), (69942, 69951),
   (70096, 70105), (70384, 70393), (70736, 70745),
   (70864, 70873), (71248, 71257), (71360, 71369),
   (71472, 71481), (71904, 71913), (72016, 72025),
   (72784, 72793), (73040, 73049), (73120, 73129),
   (92768, 92777), (92864, 92873), (93008, 93017),
   (120782, 120831), (123200, 123209), (123632, 123641),
   (125264, 125273), (130032, 130041)]

/-- Model of Python re's `\d` character class on `str`: a Unicode decimal
digit (category Nd). `\D` is its negation. -/
def isPyDigit (c : Char) : Bool :=
  ndRanges.any (fun r => decide (r.1 ≤ c.toNat ∧ c.toNat ≤ r.2))

/-- Match of the anchored pattern tail `-\+(\d{8})-\+(front|back)_laser$`
against the entire remaining input: separator `-+`, exactly 8 Unicode
decimal digits, separator `-+`, `front_laser` or `back_laser`, end of
input. Returns the two capture groups. -/
def parseSuffix (cs : List Char) : Option (List Char × String) :=
  match cs with
  | a :: b :: rest =>
      if a = '-' ∧ b = '+' ∧ (rest.take 8).length = 8
          ∧ (rest.take 8).all isPyDigit then
        if rest.drop 8 = ("-+front_laser").data then some (rest.take 8, ("front"))
        else if rest.drop 8 = ("-+back_laser").data then some (rest.take 8, ("back"))
        else none
      else none
  | _ => none

/-- The greedy `.*` walk: consume the longest possible middle of
non-newline characters (`.` does not match a newline), then match the
anchored tail at the remaining input. Preferring the recursive call gives
the rightmost (greedy) match, as Python's backtracking does. -/
def findTail : List Char → Option (List Char × String)
  | [] => none
  | c :: rest =>
      (if c = '\n' then none else findTail rest).orElse
        (fun _ => parseSuffix (c :: rest))

/-- Python's `$` matches at the end of the string or just before one
trailing newline; equivalently, the anchored pattern runs over the input
with one trailing newline removed. -/
def stripTrailingNewline (cs : List Char) : List Char :=
  if cs.getLast? = some '\n' then cs.dropLast else cs

/-- Model of `extract_card_identity(stem)`:
`re.match(r"^(RG\d{9})(?=\D).*-\+(\d{8})-\+(front|back)_laser$", stem)`,
returning the `CardIdentity` of the three groups, or `none` for the
`ValueError` raised when the match fails. -/
def extract_card_identity (stem : String) : Option CardIdentity :=
  match stripTrailingNewline stem.data with
  | c1 :: c2 :: rest =>
      if c1 = 'R' ∧ c2 = 'G' ∧ (rest.take 9).length = 9
          ∧ (rest.take 9).all isPyDigit
          ∧ isPyDigit ((rest.drop 9).headD ('0')) = false then
        match findTail (rest.drop 9) with
        | some pr =>
            some ⟨String.mk (c1 :: c2 :: rest.take 9), String.mk pr.1, pr.2⟩
        | none => none
      else none
  | _ => none

/-- The documented shape of the pattern tail matched at the very point the
`.*` stops: `-+`, exactly 8 Unicode decimal digits, `-+`, `front` or
`back`, `_laser`, end of input. -/
def DirectShape (cs : List Char) : Prop :=
  ∃ d8 ot, d8.length = 8 ∧ d8.all isPyDigit ∧
    (ot = ("front").data ∨ ot = ("back").data) ∧
    cs = '-' :: '+' :: (d8 ++ ('-' :: '+' :: (ot ++ ("_laser").data)))

/-- The region covered by `.*` plus the anchored tail: some middle of
non-newline characters followed by a `DirectShape` tail. -/
def TailShape (cs : List Char) : Prop :=
  ∃ mid rest, cs = mid ++ rest ∧ (∀ c ∈ mid, c ≠ '\n') ∧ DirectShape rest

/-- The documented stem shape: `RG`, exactly 9 Unicode decimal digits
(Python's `\d`) not immediately followed by another digit (the `(?=\D)`
lookahead: the following character — which is `-` when the middle is empty
— is not a digit), optional extra non-newline text, `-+`, exactly 8
Unicode decimal digits, `-+`, `front_laser` or `back_laser`. -/
def GoodStemCore (cs : List Char) : Prop :=
  ∃ d9 mid d8 ot,
    d9.length = 9 ∧ d9.all isPyDigit ∧
    (isPyDigit (mid.headD '-') = false) ∧
    (∀ c ∈ mid, c ≠ '\n') ∧
    d8.length = 8 ∧ d8.all isPyDigit ∧
    (ot = ("front").data ∨ ot = ("back").data) ∧
    cs = 'R' :: 'G' ::
      (d9 ++ (mid ++ ('-' :: '+' :: (d8 ++ ('-' :: '+' :: (ot ++ ("_laser").data))))))

/-- One failure mode of a `Splitter.split` call (a raised `ValueError`). -/
inductive SplitFailure
  | extractionFailed (stem : String)
  | invalidScore
deriving DecidableEq

/-- Model of `CertIdSplitter.split(record)` for an arbitrary `SplitPolicy` (a
function from scores to splits): extract the card identity from the
record's stem, hash the certificate id — not the whole stem — and apply
the policy. Extraction and score-construction failures propagate. -/
def certIdSplitterSplit (policy : ℚ → Option DatasetSplit) (seed : Int)
    (r : Record) : Except SplitFailure (Option DatasetSplit) :=
  match extract_card_identity r.stem with
  | none => .error (.extractionFailed r.stem)
  | some cid =>
      match compute_hash_score cid.certificate_id seed with
      | none => .error .invalidScore
      | some sc => .ok (policy sc)

/-- Model of `HashSplitter.split(record)`: hash the record's stem and apply the
policy. -/
def hashSplitterSplit (policy : ℚ → Option DatasetSplit) (seed : Int)
    (r : Record) : Except SplitFailure (Option DatasetSplit) :=
  match compute_hash_score r.stem seed with
  | none => .error .invalidScore
  | some sc => .ok (policy sc)

/-! ### Bulk splitting (Splitter.split_records) -/

/-- Model of `Splitter.split_records(records)` for a splitter whose `split` method is
a (total) function of the record: the dict comprehension
`{split: [r for r in records if split(r) == split] for split in DatasetSplit}`
followed by the total-count check that raises `ValueError` on mismatch. -/
def split_records (f : Record → DatasetSplit) (records : List Record) :
    Except String (List (DatasetSplit × List Record)) :=
  let splits := splitsList.map
    (fun s => (s, records.filter (fun r => decide (f r = s))))
  if (splits.map (fun pr => pr.2.length)).sum = records.length then .ok splits
  else .error ("The sums of the splits are not equal to the total number of records")

/-! ### Dataset discovery, planning and build (dataset_build.py) -/

/-- The per-stem failure of the splitting/planning/build pipeline
(`DatasetBuildError` plus the Python exceptions that propagate through it
uncaught: `KeyError`, `AssertionError`, `FileExistsError`). -/
inductive DatasetBuildError where
  | duplicateImages (groups : List (List Path))
  | duplicateAnnotations (groups : List (List Path))
  | mismatchedStems (missingImages missingAnnotations : Finset String)
  | keyLookupFailed (stem : String)
  | stemsDisagree (ip ap : Path)
  | invalidTaskName (task : String) (ip : Path)
  | nonEmptyDirectory (dir : Path)
  | duplicatePlans
  | fileExistsError (dir : Path)
deriving DecidableEq

/-- The `defaultdict(list)` of `find_duplicate_filenames`, keyed by
`path.name`: groups in first-occurrence order, each group listing, in input
order, every path bearing that name (`fuel`-driven totalisation; the fuel
`paths.length` used by `groupByName` always suffices). -/
def groupByNameAux : Nat → List Path → List (String × List Path)
  | 0, _ => []
  | _, [] => []
  | fuel + 1, p :: rest =>
      (p.name, p :: rest.filter (fun q => decide (q.name = p.name))) ::
        groupByNameAux fuel (rest.filter (fun q => decide (¬ q.name = p.name)))

/-- See `groupByNameAux`. -/
def groupByName (paths : List Path) : List (String × List Path) :=
  groupByNameAux paths.length paths

/-- Model of `find_duplicate_filenames(paths)`: the groups of paths sharing a file
name, restricted to groups of more than one path. -/
def find_duplicate_filenames (paths : List Path) : List (List Path) :=
  ((groupByName paths).map Prod.snd).filter (fun g => decide (1 < g.length))

/-- The dict comprehension `{path.stem: path for path in paths}`: keys in
first-insertion order, each key mapped to the *last* path bearing that stem
(later insertions overwrite). `fuel`-driven totalisation as above. -/
def stemDictAux : Nat → List Path → List (String × Path)
  | 0, _ => []
  | _, [] => []
  | fuel + 1, p :: rest =>
      (p.stem, (rest.filter (fun q => decide (q.stem = p.stem))).getLastD p) ::
        stemDictAux fuel (rest.filter (fun q => decide (¬ q.stem = p.stem)))

/-- See `stemDictAux`. -/
def stemDict (paths : List Path) : List (String × Path) :=
  stemDictAux paths.length paths

/-- Model of `dict.keys()` as a list. -/
def dictKeys (d : List (String × Path)) : List String := d.map Prod.fst

/-- Model of `dict[key]`, `none` for a `KeyError`. -/
def lookupDict (d : List (String × Path)) (k : String) : Option Path :=
  (d.find? (fun e => decide (e.1 = k))).map Prod.snd

/-- Model of `dict[key]` with a default, used to name the looked-up value once the
lookup is known to succeed. -/
def lookupDictD (d : List (String × Path)) (k : String) : Path :=
  (lookupDict d k).getD (Path.mk [])

/-- Model of `image_path.parent.parent.name`: the grand-parent directory component
from which `records_from_cvat_raw` recovers the owning task name. -/
def taskNameOf (ip : Path) : String := ip.parent.parent.name

/-- Python `str.startswith(pre)`, over the character lists (kept
kernel-computable, unlike `String.startsWith`). -/
def strStartsWith (s pre : String) : Bool :=
  decide (s.data.take pre.data.length = pre.data)

instance {ε α : Type} [DecidableEq ε] [DecidableEq α] :
    DecidableEq (Except ε α)
  | .error a, .error b =>
      if h : a = b then isTrue (by rw [h])
      else isFalse (by intro hc; cases hc; exact h rfl)
  | .error _, .ok _ => isFalse (by intro hc; cases hc)
  | .ok _, .error _ => isFalse (by intro hc; cases hc)
  | .ok a, .ok b =>
      if h : a = b then isTrue (by rw [h])
      else isFalse (by intro hc; cases hc; exact h rfl)

/-- The `for stem, image_path in stem2image_path.items()` loop of
`records_from_cvat_raw`: look up the annotation by stem (a missing key is a
`KeyError`), re-check the stems, build the `Record`, validate the task name
and accumulate the task set (Python `set.add`, modelled as an
insertion-ordered deduplicated list). -/
def discoverLoop (annDict : List (String × Path)) :
    List (String × Path) → List Record → List String →
    Except DatasetBuildError (List Record × List String)
  | [], recAcc, taskAcc => .ok (recAcc, taskAcc)
  | e :: rest, recAcc, taskAcc =>
      match lookupDict annDict e.1 with
      | none => .error (.keyLookupFailed e.1)
      | some apath =>
          if ¬ e.2.stem = apath.stem then .error (.stemsDisagree e.2 apath)
          else if ¬ strStartsWith (taskNameOf e.2) ("task_") then
            .error (.invalidTaskName (taskNameOf e.2) e.2)
          else
            discoverLoop annDict rest (recAcc ++ [Record.mk e.2 apath])
              (if taskNameOf e.2 ∈ taskAcc then taskAcc
               else taskAcc ++ [taskNameOf e.2])

/-- Model of `records_from_cvat_raw(dataset_path)`, applied to the two file listings
that `pv.get_files` returns (all `.png` files and all `.xml` files under
the raw root): duplicate-name detection for both populations, stem-keyed
pairing, stem-set comparison (Python compares dict key *views*, i.e. sets),
then the record/task loop. -/
def records_from_cvat_raw (image_paths annotation_paths : List Path) :
    Except DatasetBuildError (List Record × List String) :=
  if ¬ find_duplicate_filenames image_paths = [] then
    .error (.duplicateImages (find_duplicate_filenames image_paths))
  else if ¬ find_duplicate_filenames annotation_paths = [] then
    .error (.duplicateAnnotations (find_duplicate_filenames annotation_paths))
  else
    if ¬ (dictKeys (stemDict image_paths)).toFinset
        = (dictKeys (stemDict annotation_paths)).toFinset then
      .error (.mismatchedStems
        ((dictKeys (stemDict annotation_paths)).toFinset
          \ (dictKeys (stemDict image_paths)).toFinset)
        ((dictKeys (stemDict image_paths)).toFinset
          \ (dictKeys (stemDict annotation_paths)).toFinset))
    else discoverLoop (stemDict annotation_paths) (stemDict image_paths) [] []

/-- Model of `DatasetLayout` (dataset_layout.py): a repository root and its four
derived sub-paths. -/
structure DatasetLayout where
  dataset_repo : Path
deriving DecidableEq

/-- Model of `layout.cvat_raw`. -/
def DatasetLayout.cvat_raw (l : DatasetLayout) : Path :=
  pathJoin l.dataset_repo ("cvat_raw")

/-- Model of `layout.canonical`. -/
def DatasetLayout.canonical (l : DatasetLayout) : Path :=
  pathJoin l.dataset_repo ("canonical")

/-- Model of `layout.records`. -/
def DatasetLayout.records (l : DatasetLayout) : Path :=
  pathJoin l.canonical ("records")

/-- Model of `layout.splits`. -/
def DatasetLayout.splits (l : DatasetLayout) : Path :=
  pathJoin l.canonical ("splits")

/-- Model of `RecordPlan` (the source fields `src_annotation`/`dst_annotation` are
shortened here to `src_annot`/`dst_annot`). -/
structure RecordPlan where
  stem : String
  src_image : Path
  src_annot : Path
  dst_image : Path
  dst_annot : Path
  split : DatasetSplit
deriving DecidableEq

/-- Model of `DatasetPlan`. -/
structure DatasetPlan where
  layout : DatasetLayout
  tasks : List String
  record_copies : List RecordPlan
deriving DecidableEq

/-- The `RecordPlan` built for one record inside `plan_dataset`:
destinations are `layout.records / <source file name>`. -/
def mkRecordPlan (layout : DatasetLayout) (s : DatasetSplit) (r : Record) :
    RecordPlan :=
  ⟨r.stem, r.image_path, r.annotation_path,
   pathJoin (DatasetLayout.records layout) r.image_path.name,
   pathJoin (DatasetLayout.records layout) r.annotation_path.name, s⟩

/-- The `for record in records` loop of `plan_dataset`: compute each
record's split (the first splitter exception aborts the loop and
propagates) and append its `RecordPlan` in input order. -/
def planLoop (layout : DatasetLayout)
    (splitter : Record → Except DatasetBuildError DatasetSplit) :
    List Record → Except DatasetBuildError (List RecordPlan)
  | [] => .ok []
  | r :: rest =>
      match splitter r with
      | .error e => .error e
      | .ok s =>
          match planLoop layout splitter rest with
          | .error e => .error e
          | .ok plans => .ok (mkRecordPlan layout s r :: plans)

/-- Model of `plan_dataset(records, tasks, layout, splitter)`: build the record
plans, then `assert len(record_copies) == len(set(record_copies))` (a
failing assertion is modelled as the `duplicatePlans` error). Planning is a
pure function: it performs no filesystem access. -/
def plan_dataset (records : List Record) (tasks : List String)
    (layout : DatasetLayout)
    (splitter : Record → Except DatasetBuildError DatasetSplit) :
    Except DatasetBuildError DatasetPlan :=
  match planLoop layout splitter records with
  | .error e => .error e
  | .ok copies =>
      if copies.length = copies.dedup.length then .ok ⟨layout, tasks, copies⟩
      else .error .duplicatePlans

/-- The filesystem writes performed by a successful
`execute_dataset_plan`: the canonical root created, the task manifest, the
`(source, destination)` copy pairs in execution order, and the three split
manifests (stems in plan order). -/
structure ExecutedBuild where
  canonical : Path
  tasksFile : List String
  copies : List (Path × Path)
  splitManifests : List (DatasetSplit × List String)
deriving DecidableEq

/-- Model of `execute_dataset_plan(plan)`. Its first step is
`plan.layout.canonical.mkdir(parents=True)`, which raises
`FileExistsError` when the canonical directory already exists (no
`exist_ok=True` is passed); otherwise the copies and manifests are
written. -/
def execute_dataset_plan (canonicalExists : Bool) (plan : DatasetPlan) :
    Except DatasetBuildError ExecutedBuild :=
  if canonicalExists then
    .error (.fileExistsError (DatasetLayout.canonical plan.layout))
  else
    .ok ⟨DatasetLayout.canonical plan.layout, plan.tasks,
      (plan.record_copies.map (fun rc =>
        [(rc.src_image, rc.dst_image), (rc.src_annot, rc.dst_annot)])).flatten,
      splitsList.map (fun s =>
        (s, (plan.record_copies.filter (fun rc => decide (rc.split = s))).map
          (fun rc => rc.stem)))⟩

/-- The filesystem state a build starts from: whether
`layout.canonical` exists and which entries it holds (`none`: it does not
exist), plus the two raw file listings `pv.get_files` would return. -/
structure RawFileSystem where
  canonicalDir : Option (List String)
  imagePaths : List Path
  annotationPaths : List Path

/-- Model of `_ensure_empty_directory(directory)`:
`if directory.exists() and any(directory.iterdir())`, raise. -/
def ensure_empty_directory (dir : Option (List String)) (p : Path) :
    Except DatasetBuildError Unit :=
  match dir with
  | some entries =>
      if ¬ entries = [] then .error (.nonEmptyDirectory p) else .ok ()
  | none => .ok ()

/-- Model of `build_dataset(dataset_layout, splitter)`: the emptiness check, then
discover → plan → execute in that order. An error carries no
`ExecutedBuild`: nothing has been written. -/
def build_dataset (fs : RawFileSystem) (layout : DatasetLayout)
    (splitter : Record → Except DatasetBuildError DatasetSplit) :
    Except DatasetBuildError ExecutedBuild :=
  match ensure_empty_directory fs.canonicalDir (DatasetLayout.canonical layout) with
  | .error e => .error e
  | .ok _ =>
      match records_from_cvat_raw fs.imagePaths fs.annotationPaths with
      | .error e => .error e
      | .ok (records, tasks) =>
          match plan_dataset records tasks layout splitter with
          | .error e => .error e
          | .ok plan => execute_dataset_plan fs.canonicalDir.isSome plan

/-! ### Theorems -/

lemma ratioSplit_eq (p : RatioSplitPolicy) (s : ℚ) :
    p.split s =
      if s < p.train then some DatasetSplit.TRAIN
      else if s < p.train + p.val then some DatasetSplit.VAL
      else if s < 1 then some DatasetSplit.TEST
      else none := by
  simp [RatioSplitPolicy.split, thresholds, splitLoop]

/-- Claim C1 (amended): for a `RatioSplitPolicy` whose three ratios are each
strictly positive and sum to exactly 1, `split` walks the cumulative
thresholds `(train, train + val, 1)` and returns the first bucket whose limit
strictly exceeds the score: score 0 lands in TRAIN, any score strictly below
`train` lands in TRAIN, the score exactly `train` lands in VAL (not TRAIN),
the score exactly `train + val` lands in TEST, and every score in
`[train + val, 1)` lands in TEST. -/
theorem ratio_split_boundaries (t v te : ℚ) (ht : 0 < t) (hv : 0 < v)
    (hte : 0 < te) (hsum : t + v + te = 1) :
    (RatioSplitPolicy.mk t v te).split 0 = some DatasetSplit.TRAIN ∧
    (∀ s : ℚ, 0 ≤ s → s < t →
      (RatioSplitPolicy.mk t v te).split s = some DatasetSplit.TRAIN) ∧
    (RatioSplitPolicy.mk t v te).split t = some DatasetSplit.VAL ∧
    (RatioSplitPolicy.mk t v te).split (t + v) = some DatasetSplit.TEST ∧
    (∀ s : ℚ, t + v ≤ s → s < 1 →
      (RatioSplitPolicy.mk t v te).split s = some DatasetSplit.TEST) := by
  refine ⟨?_, ?_, ?_, ?_, ?_⟩
  · rw [ratioSplit_eq]
    simp only [if_pos ht]
  · intro s _ hs
    rw [ratioSplit_eq]
    simp only [if_pos hs]
  · rw [ratioSplit_eq]
    rw [if_neg (by linarith), if_pos (by linarith)]
  · rw [ratioSplit_eq]
    rw [if_neg (by linarith), if_neg (by linarith), if_pos (by linarith)]
  · intro s hs hs1
    rw [ratioSplit_eq]
    rw [if_neg (by linarith), if_neg (by linarith), if_pos hs1]

/-- Witness for `ratio_split_boundaries` at the concrete policy
`(7/10, 2/10, 1/10)`. -/
theorem ratio_split_boundaries_witness :
    (RatioSplitPolicy.mk (7/10) (2/10) (1/10)).split (7/10) =
      some DatasetSplit.VAL := by
  have h := ratio_split_boundaries (7/10) (2/10) (1/10)
    (by norm_num) (by norm_num) (by norm_num) (by norm_num)
  exact h.2.2.1

/-- Counterexample to claim C1 as stated: the code accepts the policy
`(1/2, 0, 1/2)` (ratios sum to 1), and the score exactly equal to `train`,
which is a valid `SplitScore`, lands in TEST — not in VAL as the claim
requires for every ratio policy summing to 1. -/
theorem ratio_split_boundary_cex :
    (1/2 : ℚ) + 0 + 1/2 = 1 ∧
    ratioPolicyValid (RatioSplitPolicy.mk (1/2) 0 (1/2)) ∧
    validScore (1/2 : ℚ) ∧
    (RatioSplitPolicy.mk (1/2) 0 (1/2)).split (1/2) =
      some DatasetSplit.TEST := by
  refine ⟨by norm_num, ?_, by norm_num [validScore], ?_⟩
  · simp only [ratioPolicyValid]
    norm_num
  · rw [ratioSplit_eq]
    norm_num

lemma wordBytes_lt (w : Nat) : ∀ b ∈ wordBytes w, b < 256 := by
  intro b hb
  simp only [wordBytes, List.mem_cons, List.not_mem_nil, or_false] at hb
  rcases hb with h | h | h | h <;> omega

lemma sha256Bytes_lt (msg : List Nat) : ∀ b ∈ sha256Bytes msg, b < 256 := by
  intro b hb
  simp only [sha256Bytes, List.mem_append] at hb
  rcases hb with ((((((h | h) | h) | h) | h) | h) | h) | h <;>
    exact wordBytes_lt _ b h

lemma compute_first_hash_byte_lt (stem : String) (seed : Int) :
    compute_first_hash_byte stem seed < 256 := by
  unfold compute_first_hash_byte
  cases h : sha256Bytes (utf8Bytes (toString seed ++ (":") ++ stem)) with
  | nil => simp [List.headD]
  | cons b t =>
      have hmem : b ∈ sha256Bytes (utf8Bytes (toString seed ++ (":") ++ stem)) := by
        rw [h]; exact List.mem_cons_self b t
      have := sha256Bytes_lt _ b hmem
      simpa [h, List.headD] using this

lemma compute_hash_score_eq (stem : String) (seed : Int) :
    compute_hash_score stem seed =
      some ((compute_first_hash_byte stem seed : ℚ) / 256) ∧
    0 ≤ ((compute_first_hash_byte stem seed : ℚ) / 256) ∧
    ((compute_first_hash_byte stem seed : ℚ) / 256) < 1 := by
  have hlt : ((compute_first_hash_byte stem seed : ℚ) / 256) < 1 := by
    rw [div_lt_one (by norm_num)]
    exact_mod_cast compute_first_hash_byte_lt stem seed
  have hge : 0 ≤ ((compute_first_hash_byte stem seed : ℚ) / 256) := by
    positivity
  refine ⟨?_, hge, hlt⟩
  simp only [compute_hash_score, mkSplitScore, if_pos (And.intro hge hlt)]

/-- Claim C2: for every seed and key string, the hash score is
`SplitScore(first byte of sha256(utf8("{seed}:{key}")) / 256)`; it is
deterministic (identical inputs give the identical value), always lies in
`[0, 1)` (so the `SplitScore` constructor succeeds), and reproduces the
pinned vectors for seed 42: byte 15 for `test_image_0`, 205 for
`test_image_5`, 247 for `test_image_7`. -/
theorem hash_score_spec :
    (∀ (stem : String) (seed : Int),
      compute_first_hash_byte stem seed =
        (sha256Bytes (utf8Bytes (toString seed ++ (":") ++ stem))).headD 0 ∧
      compute_hash_score stem seed =
        some ((compute_first_hash_byte stem seed : ℚ) / 256) ∧
      0 ≤ ((compute_first_hash_byte stem seed : ℚ) / 256) ∧
      ((compute_first_hash_byte stem seed : ℚ) / 256) < 1) ∧
    (∀ (stem stem' : String) (seed seed' : Int), stem = stem' → seed = seed' →
      compute_hash_score stem seed = compute_hash_score stem' seed') ∧
    compute_first_hash_byte ("test_image_0") 42 = 15 ∧
    compute_first_hash_byte ("test_image_5") 42 = 205 ∧
    compute_first_hash_byte ("test_image_7") 42 = 247 := by
  refine ⟨?_, ?_, by decide, by decide, by decide⟩
  · intro stem seed
    exact ⟨rfl, (compute_hash_score_eq stem seed).1,
      (compute_hash_score_eq stem seed).2.1, (compute_hash_score_eq stem seed).2.2⟩
  · intro stem stem' seed seed' h1 h2
    rw [h1, h2]

/-- Witness for `hash_score_spec`: its determinism conjunct applied at
identical concrete inputs. -/
theorem hash_score_spec_witness :
    compute_hash_score ("test_image_0") 42 = compute_hash_score ("test_image_0") 42 :=
  hash_score_spec.2.1 ("test_image_0") ("test_image_0") 42 42 rfl rfl

/-- Claim C10: for every score satisfying the `SplitScore` invariant
`0 ≤ score < 1`, `RatioSplitPolicy.split` returns one of the three
enumeration values (the trailing `RuntimeError("Unreachable")` is never
reached, because the final threshold is the literal 1.0); and every score
produced by `compute_hash_score` is a byte in 0–255 divided by 256, hence
satisfies the invariant, so the `SplitScore` construction error is never
raised by hash scoring. -/
theorem split_total_and_score_valid :
    (∀ (p : RatioSplitPolicy) (s : ℚ), 0 ≤ s → s < 1 →
      ∃ d : DatasetSplit, p.split s = some d) ∧
    (∀ (stem : String) (seed : Int), ∃ b : Nat, b < 256 ∧
      compute_first_hash_byte stem seed = b ∧
      compute_hash_score stem seed = some ((b : ℚ) / 256) ∧
      validScore ((b : ℚ) / 256)) := by
  constructor
  · intro p s _ hs1
    rw [ratioSplit_eq]
    split_ifs with h1 h2
    · exact ⟨DatasetSplit.TRAIN, rfl⟩
    · exact ⟨DatasetSplit.VAL, rfl⟩
    · exact ⟨DatasetSplit.TEST, rfl⟩
  · intro stem seed
    refine ⟨compute_first_hash_byte stem seed,
      compute_first_hash_byte_lt stem seed, rfl, ?_, ?_⟩
    · exact (compute_hash_score_eq stem seed).1
    · exact (compute_hash_score_eq stem seed).2

/-- Witness for `split_total_and_score_valid` at a concrete policy and
score. -/
theorem split_total_and_score_valid_witness :
    ∃ d : DatasetSplit,
      (RatioSplitPolicy.mk (1/2) (1/4) (1/4)).split (1/2) = some d :=
  split_total_and_score_valid.1 (RatioSplitPolicy.mk (1/2) (1/4) (1/4)) (1/2)
    (by norm_num) (by norm_num)

lemma take_eq_of_length_eq {α} {l₁ l₂ : List α} {n : Nat} (h : l₁.length = n) :
    (l₁ ++ l₂).take n = l₁ := by
  subst h
  rw [List.take_append_of_le_length (Nat.le_refl _), List.take_length]

lemma drop_eq_of_length_eq {α} {l₁ l₂ : List α} {n : Nat} (h : l₁.length = n) :
    (l₁ ++ l₂).drop n = l₂ := by
  subst h
  rw [List.drop_append_of_le_length (Nat.le_refl _), List.drop_length,
    List.nil_append]

lemma parseSuffix_isSome_iff (cs : List Char) :
    (parseSuffix cs).isSome ↔ DirectShape cs := by
  constructor
  · intro h
    rcases cs with _ | ⟨a, _ | ⟨b, rest⟩⟩
    · simp [parseSuffix] at h
    · simp [parseSuffix] at h
    · simp only [parseSuffix] at h
      split_ifs at h with h1 h2 h3
      · obtain ⟨ha, hb, hlen, hdig⟩ := h1
        subst ha; subst hb
        refine ⟨rest.take 8, ("front").data, hlen, hdig, Or.inl rfl, ?_⟩
        conv_lhs => rw [← List.take_append_drop 8 rest, h2]
        simp
      · obtain ⟨ha, hb, hlen, hdig⟩ := h1
        subst ha; subst hb
        refine ⟨rest.take 8, ("back").data, hlen, hdig, Or.inr rfl, ?_⟩
        conv_lhs => rw [← List.take_append_drop 8 rest, h3]
        simp
      · simp at h
      · simp at h
  · rintro ⟨d8, ot, hlen, hdig, hot, rfl⟩
    have ht : (d8 ++ ('-' :: '+' :: (ot ++ ("_laser").data))).take 8 = d8 :=
      take_eq_of_length_eq hlen
    have hd : (d8 ++ ('-' :: '+' :: (ot ++ ("_laser").data))).drop 8 =
        '-' :: '+' :: (ot ++ ("_laser").data) :=
      drop_eq_of_length_eq hlen
    rcases hot with rfl | rfl
    · simp [parseSuffix, ht, hd, hlen, hdig]
    · simp [parseSuffix, ht, hd, hlen, hdig]

lemma findTail_isSome_iff (cs : List Char) :
    (findTail cs).isSome ↔ TailShape cs := by
  induction cs with
  | nil =>
      simp only [findTail, Option.isSome_none, Bool.false_eq_true, false_iff]
      rintro ⟨mid, rest, hcs, hmid, d8, ot, hlen, hdig, hot, hrest⟩
      rcases List.append_eq_nil.mp hcs.symm with ⟨rfl, rfl⟩
      simp at hrest
  | cons c rest ih =>
      constructor
      · intro h
        simp only [findTail] at h
        rcases hsplit : (if c = '\n' then none else findTail rest) with _ | r
        · rw [hsplit] at h
          simp only [Option.orElse] at h
          exact ⟨[], c :: rest, rfl, by simp, (parseSuffix_isSome_iff _).mp h⟩
        · have hc : ¬ c = '\n' := by
            intro hc
            rw [if_pos hc] at hsplit
            cases hsplit
          rw [if_neg hc] at hsplit
          have hrs : (findTail rest).isSome := by rw [hsplit]; rfl
          obtain ⟨mid, rr, hcs, hmid, hd⟩ := ih.mp hrs
          refine ⟨c :: mid, rr, by rw [List.cons_append, ← hcs], ?_, hd⟩
          intro x hx
          rcases List.mem_cons.mp hx with rfl | hx
          · exact hc
          · exact hmid x hx
      · rintro ⟨mid, rr, hcs, hmid, hd⟩
        cases mid with
        | nil =>
            simp only [List.nil_append] at hcs
            have hps : (parseSuffix (c :: rest)).isSome :=
              (parseSuffix_isSome_iff _).mpr (hcs ▸ hd)
            simp only [findTail]
            cases hif : (if c = '\n' then none else findTail rest) with
            | none => simpa [Option.orElse, hif] using hps
            | some r => simp [Option.orElse, hif]
        | cons m mid' =>
            rw [List.cons_append] at hcs
            injection hcs with h1 h2
            subst h1
            have hc : c ≠ '\n' := hmid c (List.mem_cons_self c mid')
            have hrs : (findTail rest).isSome :=
              ih.mpr ⟨mid', rr, h2, fun x hx => hmid x (List.mem_cons_of_mem _ hx), hd⟩
            simp only [findTail]
            rw [if_neg hc]
            cases hft : findTail rest with
            | none => rw [hft] at hrs; cases hrs
            | some r => simp [Option.orElse, hft]

lemma goodStem_getLast_ne_newline {core : List Char} (h : GoodStemCore core) :
    ¬ core.getLast? = some '\n' := by
  obtain ⟨d9, mid, d8, ot, _, _, _, _, _, _, hot, rfl⟩ := h
  have hsh : 'R' :: 'G' ::
      (d9 ++ (mid ++ ('-' :: '+' :: (d8 ++ ('-' :: '+' :: (ot ++ ("_laser").data)))))) =
      ('R' :: 'G' :: (d9 ++ (mid ++ ('-' :: '+' :: (d8 ++ ('-' :: '+' :: ot))))))
        ++ ("_laser").data := by
    simp [List.cons_append, List.append_assoc]
  rw [hsh, List.getLast?_append_of_ne_nil _ (by decide)]
  decide

lemma stripTrailingNewline_of_core {stem : String} {core : List Char}
    (hG : GoodStemCore core)
    (h : stem.data = core ∨ stem.data = core ++ ['\n']) :
    stripTrailingNewline stem.data = core := by
  rcases h with h | h <;> rw [h] <;> unfold stripTrailingNewline
  · rw [if_neg (goodStem_getLast_ne_newline hG)]
  · rw [if_pos (by rw [List.getLast?_concat]), List.dropLast_concat]

lemma stripTrailingNewline_cases (cs : List Char) :
    cs = stripTrailingNewline cs ∨ cs = stripTrailingNewline cs ++ ['\n'] := by
  unfold stripTrailingNewline
  split_ifs with h
  · right
    have hne : cs ≠ [] := by
      intro hnil
      rw [hnil] at h
      simp at h
    have hlast : cs.getLast hne = '\n' := by
      have := List.getLast?_eq_getLast cs hne
      rw [this] at h
      exact Option.some_inj.mp h
    conv_lhs => rw [← List.dropLast_append_getLast hne, hlast]
  · left
    rfl

lemma extract_eq_of_strip {stem : String} {c1 c2 : Char} {rest : List Char}
    (h : stripTrailingNewline stem.data = c1 :: c2 :: rest) :
    extract_card_identity stem =
      if c1 = 'R' ∧ c2 = 'G' ∧ (rest.take 9).length = 9
          ∧ (rest.take 9).all isPyDigit
          ∧ isPyDigit ((rest.drop 9).headD ('0')) = false then
        match findTail (rest.drop 9) with
        | some pr =>
            some ⟨String.mk (c1 :: c2 :: rest.take 9), String.mk pr.1, pr.2⟩
        | none => none
      else none := by
  unfold extract_card_identity
  rw [h]

lemma extract_eq_none_of_strip_nil {stem : String}
    (h : stripTrailingNewline stem.data = []) :
    extract_card_identity stem = none := by
  unfold extract_card_identity
  rw [h]

lemma extract_eq_none_of_strip_single {stem : String} {c : Char}
    (h : stripTrailingNewline stem.data = [c]) :
    extract_card_identity stem = none := by
  unfold extract_card_identity
  rw [h]

/-- Claim C4 (amended): `extract_card_identity` succeeds exactly on stems of
the documented shape — `RG`, exactly 9 digits not immediately followed by
another digit, optional extra non-newline text, separator `-+`, exactly 8
digits, `-+`, `front_laser` or `back_laser`, where a digit is a *Unicode*
decimal digit as Python's `\d` matches (e.g. `٩` U+0669 counts) —
*optionally followed by a single trailing newline* (Python's `$` also
matches just before one final newline); on the concrete stem it returns
the documented triple; each documented deviation (7- or 9-digit
certificate id, 8- or 10-digit order-id run, non-digit in the certificate
run, unrecognised orientation token) fails with no partial result; an
Arabic-Indic digit completing the order-id run is accepted, while one
right after a full ASCII order-id run trips the `(?=\D)` lookahead and is
rejected. -/
theorem extract_card_identity_shape :
    (∀ stem : String,
      (∃ id, extract_card_identity stem = some id) ↔
      (∃ core, (stem.data = core ∨ stem.data = core ++ ['\n']) ∧
        GoodStemCore core)) ∧
    extract_card_identity ("RG123456789-+00000005-+front_laser") =
      some ⟨("RG123456789"), ("00000005"), ("front")⟩ ∧
    extract_card_identity ("RG123456789-+1234567-+front_laser") = none ∧
    extract_card_identity ("RG123456789-+123456789-+front_laser") = none ∧
    extract_card_identity ("RG12345678-+12345678-+front_laser") = none ∧
    extract_card_identity ("RG1234567890-+12345678-+front_laser") = none ∧
    extract_card_identity ("RG123456789-+134invalid-+front_laser") = none ∧
    extract_card_identity ("RG123456789-+12345678-+invalid_orientation") = none ∧
    extract_card_identity ("RG12345678\u0669-+00000005-+front_laser") =
      some ⟨("RG12345678\u0669"), ("00000005"), ("front")⟩ ∧
    extract_card_identity ("RG123456789\u0663-+00000005-+front_laser") = none := by
  refine ⟨?_, by decide, by decide, by decide, by decide, by decide,
    by decide, by decide, by decide, by decide⟩
  intro stem
  constructor
  · rintro ⟨id, hid⟩
    rcases hstrip : stripTrailingNewline stem.data with _ | ⟨c1, _ | ⟨c2, rest⟩⟩
    · rw [extract_eq_none_of_strip_nil hstrip] at hid
      cases hid
    · rw [extract_eq_none_of_strip_single hstrip] at hid
      cases hid
    · rw [extract_eq_of_strip hstrip] at hid
      split_ifs at hid with hcond
      · obtain ⟨hR, hG2, hlen9, hdig9, hlook⟩ := hcond
        subst hR; subst hG2
        cases hft : findTail (rest.drop 9) with
        | none => rw [hft] at hid; cases hid
        | some pr =>
            have hts := (findTail_isSome_iff _).mp (by rw [hft]; rfl)
            obtain ⟨mid, rr, hsplit, hmid, d8, ot, hlen8, hdig8, hot, hrr⟩ := hts
            refine ⟨stripTrailingNewline stem.data,
              stripTrailingNewline_cases stem.data,
              rest.take 9, mid, d8, ot, by
                rw [List.length_take] at hlen9 ⊢
                exact hlen9, hdig9, ?_, hmid, hlen8, hdig8, hot, ?_⟩
            · cases mid with
              | nil => decide
              | cons m mid' =>
                  rw [hsplit] at hlook
                  simpa using hlook
            · rw [hstrip]
              subst hrr
              conv_lhs => rw [← List.take_append_drop 9 rest, hsplit]
  · rintro ⟨core, hdisj, hG⟩
    have hstrip := stripTrailingNewline_of_core hG hdisj
    obtain ⟨d9, mid, d8, ot, hlen9, hdig9, hlook, hmid, hlen8, hdig8, hot, hcore⟩ := hG
    subst hcore
    have hrest := extract_eq_of_strip hstrip
    have htake : ((d9 ++ (mid ++ ('-' :: '+' :: (d8 ++ ('-' :: '+' ::
        (ot ++ ("_laser").data)))))).take 9) = d9 := take_eq_of_length_eq hlen9
    have hdrop : ((d9 ++ (mid ++ ('-' :: '+' :: (d8 ++ ('-' :: '+' ::
        (ot ++ ("_laser").data)))))).drop 9) =
        mid ++ ('-' :: '+' :: (d8 ++ ('-' :: '+' :: (ot ++ ("_laser").data)))) :=
      drop_eq_of_length_eq hlen9
    have hlookahead : isPyDigit ((mid ++ ('-' :: '+' :: (d8 ++ ('-' :: '+' ::
        (ot ++ ("_laser").data))))).headD ('0')) = false := by
      cases mid with
      | nil =>
          simp only [List.nil_append, List.headD_cons]
          decide
      | cons m mid' => simpa using hlook
    rw [hrest, htake, hdrop, if_pos ⟨rfl, rfl, hlen9, hdig9, hlookahead⟩]
    have hts : (findTail (mid ++ ('-' :: '+' :: (d8 ++ ('-' :: '+' ::
        (ot ++ ("_laser").data)))))).isSome :=
      (findTail_isSome_iff _).mpr
        ⟨mid, _, rfl, hmid, d8, ot, hlen8, hdig8, hot, rfl⟩
    cases hft : findTail (mid ++ ('-' :: '+' :: (d8 ++ ('-' :: '+' ::
        (ot ++ ("_laser").data))))) with
    | none => rw [hft] at hts; cases hts
    | some pr => exact ⟨_, rfl⟩

/-- Counterexample to claim C4 as stated: a stem of the documented shape
followed by a trailing newline is a deviation from that shape, yet
extraction succeeds on it (Python's `$` matches just before a final
newline), so extraction does not succeed *exactly* on the documented
shape. -/
theorem extract_card_identity_newline_cex :
    extract_card_identity ("RG123456789-+00000005-+front_laser\n") =
      some ⟨("RG123456789"), ("00000005"), ("front")⟩ := by
  decide

/-- Claim C3: whenever two records' stems both extract to card identities
with the same certificate id, `CertIdSplitter.split` (same policy, same
seed) assigns them the same result, because the split score is computed
from the certificate id alone. -/
theorem cert_id_split_same_certificate (policy : ℚ → Option DatasetSplit)
    (seed : Int) (r1 r2 : Record) (id1 id2 : CardIdentity)
    (h1 : extract_card_identity r1.stem = some id1)
    (h2 : extract_card_identity r2.stem = some id2)
    (hc : id1.certificate_id = id2.certificate_id) :
    certIdSplitterSplit policy seed r1 = certIdSplitterSplit policy seed r2 := by
  simp only [certIdSplitterSplit, h1, h2, hc]

/-- Witness for `cert_id_split_same_certificate`: the pinned pair
`RG123456789-+00000005-+front_laser` / `RG123456789-+00000005-+back_laser`
with `RatioSplitPolicy(0.8, 0.1, 0.1)` and seed 42 land in the same
split. -/
theorem cert_id_split_same_certificate_witness :
    certIdSplitterSplit (RatioSplitPolicy.mk (8/10) (1/10) (1/10)).split 42
        (Record.mk (Path.mk [("RG123456789-+00000005-+front_laser.png")])
          (Path.mk [("RG123456789-+00000005-+front_laser.xml")])) =
      certIdSplitterSplit (RatioSplitPolicy.mk (8/10) (1/10) (1/10)).split 42
        (Record.mk (Path.mk [("RG123456789-+00000005-+back_laser.png")])
          (Path.mk [("RG123456789-+00000005-+back_laser.xml")])) :=
  cert_id_split_same_certificate _ 42 _ _
    (CardIdentity.mk ("RG123456789") ("00000005") ("front"))
    (CardIdentity.mk ("RG123456789") ("00000005") ("back"))
    (by decide) (by decide) rfl

lemma three_filter_length (f : Record → DatasetSplit) (records : List Record) :
    (records.filter (fun r => decide (f r = DatasetSplit.TRAIN))).length
      + (records.filter (fun r => decide (f r = DatasetSplit.VAL))).length
      + (records.filter (fun r => decide (f r = DatasetSplit.TEST))).length
    = records.length := by
  induction records with
  | nil => simp
  | cons r rest ih =>
      cases h : f r <;> simp [List.filter_cons, h] <;> omega

/-- Claim C5: for every record list and every splitter whose `split` is a
function of the record, `split_records` succeeds (the count-mismatch
`ValueError` is never raised) and returns a mapping whose keys are exactly
the three `DatasetSplit` members — present even when their buckets are
empty, including on the empty input — in which a record lies in a bucket
exactly when it is an input record and the bucket is its own split (so
every input record lies in exactly one bucket), and the bucket sizes sum to
the input count. -/
theorem split_records_partition (f : Record → DatasetSplit)
    (records : List Record) :
    ∃ m, split_records f records = Except.ok m ∧
      m.map Prod.fst = splitsList ∧
      (∀ s bucket, (s, bucket) ∈ m →
        ∀ r, r ∈ bucket ↔ (r ∈ records ∧ f r = s)) ∧
      (m.map (fun pr => pr.2.length)).sum = records.length := by
  refine ⟨splitsList.map
    (fun s => (s, records.filter (fun r => decide (f r = s)))), ?_, ?_, ?_, ?_⟩
  · unfold split_records
    rw [if_pos]
    simp only [splitsList, List.map_cons, List.map_nil, List.sum_cons,
      List.sum_nil]
    have := three_filter_length f records
    omega
  · simp [splitsList]
  · intro s bucket hmem r
    simp only [splitsList, List.map_cons, List.map_nil, List.mem_cons,
      List.not_mem_nil, or_false, Prod.mk.injEq] at hmem
    rcases hmem with ⟨rfl, rfl⟩ | ⟨rfl, rfl⟩ | ⟨rfl, rfl⟩ <;>
      simp [List.mem_filter]
  · simp only [splitsList, List.map_cons, List.map_nil, List.sum_cons,
      List.sum_nil]
    have := three_filter_length f records
    omega

/-- Witness for `split_records_partition`: the instantiation at a concrete
splitter and the empty record list (all three keys present even there). -/
theorem split_records_partition_witness :
    ∃ m, split_records (fun _ => DatasetSplit.TRAIN) [] = Except.ok m ∧
      m.map Prod.fst = splitsList ∧
      (∀ s bucket, (s, bucket) ∈ m →
        ∀ r, r ∈ bucket ↔ (r ∈ ([] : List Record) ∧
          (fun _ => DatasetSplit.TRAIN) r = s)) ∧
      (m.map (fun pr => pr.2.length)).sum = ([] : List Record).length :=
  split_records_partition (fun _ => DatasetSplit.TRAIN) []

lemma stemOfName_append_suffixOfName (n : String) :
    stemOfName n ++ suffixOfName n = n := by
  cases h : lastIdxOf '.' n.data with
  | none => simp [stemOfName, suffixOfName, h]
  | some i =>
      simp only [stemOfName, suffixOfName, h]
      split_ifs with hc
      · refine String.ext ?_
        rw [String.data_append]
        exact List.take_append_drop i n.data
      · simp

lemma nameOf_inj {n m : String} (hsuf : suffixOfName n = suffixOfName m)
    (hstem : stemOfName n = stemOfName m) : n = m := by
  have h1 := stemOfName_append_suffixOfName n
  have h2 := stemOfName_append_suffixOfName m
  rw [← h1, ← h2, hstem, hsuf]

lemma map_stem_eq_map_name (paths : List Path) :
    paths.map Path.stem = (paths.map Path.name).map stemOfName := by
  rw [List.map_map]
  rfl

lemma names_nodup_of_stems_nodup {paths : List Path}
    (h : (paths.map Path.stem).Nodup) : (paths.map Path.name).Nodup := by
  rw [map_stem_eq_map_name] at h
  exact h.of_map stemOfName

lemma stems_nodup_of_names_nodup {paths : List Path} {sfx : String}
    (hs : ∀ p ∈ paths, suffixOfName p.name = sfx)
    (h : (paths.map Path.name).Nodup) : (paths.map Path.stem).Nodup := by
  rw [map_stem_eq_map_name]
  refine List.Nodup.map_on ?_ h
  intro x hx y hy hxy
  obtain ⟨p, hp, rfl⟩ := List.mem_map.mp hx
  obtain ⟨q, hq, rfl⟩ := List.mem_map.mp hy
  exact nameOf_inj (by rw [hs p hp, hs q hq]) hxy

lemma groupByNameAux_dup_iff :
    ∀ (fuel : Nat) (paths : List Path), paths.length ≤ fuel →
    (((groupByNameAux fuel paths).map Prod.snd).filter
      (fun g => decide (1 < g.length)) = [] ↔ (paths.map Path.name).Nodup) := by
  intro fuel
  induction fuel with
  | zero =>
      intro paths h
      have hnil : paths = [] := List.length_eq_zero.mp (Nat.le_zero.mp h)
      subst hnil
      simp [groupByNameAux]
  | succ n ih =>
      intro paths h
      cases paths with
      | nil => simp [groupByNameAux]
      | cons p rest =>
          simp only [groupByNameAux, List.map_cons, List.filter_cons]
          by_cases hq : rest.filter (fun q => decide (q.name = p.name)) = []
          · have hne : rest.filter (fun q => decide (¬ q.name = p.name)) = rest := by
              refine List.filter_eq_self.mpr ?_
              intro q hqq
              simp only [decide_eq_true_eq]
              intro hcon
              have := List.filter_eq_nil_iff.mp hq q hqq
              simp [hcon] at this
            have hnotmem : p.name ∉ rest.map Path.name := by
              intro hmem
              obtain ⟨q, hqq, hqname⟩ := List.mem_map.mp hmem
              have := List.filter_eq_nil_iff.mp hq q hqq
              simp [hqname] at this
            rw [hq, hne]
            have hlen1 : ¬ decide (1 < ([p] : List Path).length) = true := by simp
            rw [if_neg hlen1]
            rw [ih rest (Nat.le_of_succ_le_succ h), List.nodup_cons]
            simp [hnotmem]
          · obtain ⟨q, hq2⟩ : ∃ q, q ∈ rest.filter (fun q => decide (q.name = p.name)) := by
              rcases hfe : rest.filter (fun q => decide (q.name = p.name)) with _ | ⟨q, t⟩
              · exact absurd hfe hq
              · exact ⟨q, by rw [hfe]; exact List.mem_cons_self q t⟩
            have hqmem := (List.mem_filter.mp hq2).1
            have hqname : q.name = p.name := by
              have := (List.mem_filter.mp hq2).2
              simpa using this
            have hmem : p.name ∈ rest.map Path.name :=
              List.mem_map.mpr ⟨q, hqmem, hqname⟩
            have hpos : decide (1 <
                (p :: rest.filter (fun q => decide (q.name = p.name))).length) = true := by
              simp only [decide_eq_true_eq, List.length_cons]
              have : 0 < (rest.filter (fun q => decide (q.name = p.name))).length :=
                List.length_pos.mpr hq
              omega
            rw [if_pos hpos]
            simp [hmem]

lemma find_duplicate_filenames_eq_nil_iff (paths : List Path) :
    find_duplicate_filenames paths = [] ↔ (paths.map Path.name).Nodup :=
  groupByNameAux_dup_iff paths.length paths (Nat.le_refl _)

lemma stemDictAux_of_nodup :
    ∀ (fuel : Nat) (paths : List Path), paths.length ≤ fuel →
    (paths.map Path.stem).Nodup →
    stemDictAux fuel paths = paths.map (fun p => (p.stem, p)) := by
  intro fuel
  induction fuel with
  | zero =>
      intro paths h _
      have hnil : paths = [] := List.length_eq_zero.mp (Nat.le_zero.mp h)
      subst hnil
      simp [stemDictAux]
  | succ n ih =>
      intro paths h hnd
      cases paths with
      | nil => simp [stemDictAux]
      | cons p rest =>
          rw [List.map_cons, List.nodup_cons] at hnd
          obtain ⟨hnotmem, hndrest⟩ := hnd
          have hq : rest.filter (fun q => decide (q.stem = p.stem)) = [] := by
            refine List.filter_eq_nil_iff.mpr ?_
            intro q hqq
            simp only [decide_eq_true_eq]
            intro hcon
            exact hnotmem (List.mem_map.mpr ⟨q, hqq, hcon⟩)
          have hne : rest.filter (fun q => decide (¬ q.stem = p.stem)) = rest := by
            refine List.filter_eq_self.mpr ?_
            intro q hqq
            simp only [decide_eq_true_eq]
            intro hcon
            exact hnotmem (List.mem_map.mpr ⟨q, hqq, hcon⟩)
          simp only [stemDictAux, hq, hne, List.getLastD_nil, List.map_cons]
          congr 1
          exact ih rest (Nat.le_of_succ_le_succ h) hndrest

lemma stemDict_of_nodup {paths : List Path}
    (h : (paths.map Path.stem).Nodup) :
    stemDict paths = paths.map (fun p => (p.stem, p)) :=
  stemDictAux_of_nodup paths.length paths (Nat.le_refl _) h

lemma lookup_stemMap {anns : List Path} {s : String}
    (h : s ∈ anns.map Path.stem) :
    ∃ ap, lookupDict (anns.map (fun p => (p.stem, p))) s = some ap ∧
      ap.stem = s ∧ ap ∈ anns := by
  induction anns with
  | nil => simp at h
  | cons a t ih =>
      by_cases ha : a.stem = s
      · refine ⟨a, ?_, ha, List.mem_cons_self a t⟩
        unfold lookupDict
        rw [List.map_cons, List.find?_cons_of_pos _ (by simp [ha])]
        rfl
      · have h' : s ∈ t.map Path.stem := by
          rw [List.map_cons, List.mem_cons] at h
          rcases h with h | h
          · exact absurd h.symm ha
          · exact h
        obtain ⟨ap, hl, hst, hmem⟩ := ih h'
        refine ⟨ap, ?_, hst, List.mem_cons_of_mem _ hmem⟩
        unfold lookupDict at hl ⊢
        rw [List.map_cons, List.find?_cons_of_neg _ (by simp [ha])]
        exact hl

lemma discoverLoop_ok (annDict : List (String × Path)) :
    ∀ (entries : List (String × Path)) (recAcc : List Record)
      (taskAcc : List String),
    (∀ e ∈ entries, ∃ ap, lookupDict annDict e.1 = some ap ∧ ap.stem = e.2.stem) →
    (∀ e ∈ entries, strStartsWith (taskNameOf e.2) ("task_") = true) →
    ∃ tasks,
      discoverLoop annDict entries recAcc taskAcc =
        Except.ok (recAcc ++ entries.map
          (fun e => Record.mk e.2 (lookupDictD annDict e.1)), tasks) ∧
      (∀ t, t ∈ tasks ↔ (t ∈ taskAcc ∨ ∃ e ∈ entries, taskNameOf e.2 = t)) := by
  intro entries
  induction entries with
  | nil =>
      intro recAcc taskAcc _ _
      exact ⟨taskAcc, by simp [discoverLoop], by simp⟩
  | cons e rest ih =>
      intro recAcc taskAcc hlook htask
      obtain ⟨ap, hl, hst⟩ := hlook e (List.mem_cons_self _ _)
      simp only [discoverLoop, hl]
      rw [if_neg (by simp [hst]), if_neg (by simp [htask e (List.mem_cons_self _ _)])]
      obtain ⟨tasks, hloop, htasks⟩ := ih (recAcc ++ [Record.mk e.2 ap])
        (if taskNameOf e.2 ∈ taskAcc then taskAcc else taskAcc ++ [taskNameOf e.2])
        (fun x hx => hlook x (List.mem_cons_of_mem _ hx))
        (fun x hx => htask x (List.mem_cons_of_mem _ hx))
      refine ⟨tasks, ?_, ?_⟩
      · rw [hloop]
        have hv : lookupDictD annDict e.1 = ap := by
          simp [lookupDictD, hl]
        simp [hv, List.append_assoc]
      · intro t
        rw [htasks t]
        by_cases hmem : taskNameOf e.2 ∈ taskAcc
        · simp only [if_pos hmem]
          constructor
          · rintro (ht | hex)
            · exact Or.inl ht
            · obtain ⟨x, hx, hxt⟩ := hex
              exact Or.inr ⟨x, List.mem_cons_of_mem _ hx, hxt⟩
          · rintro (ht | hex)
            · exact Or.inl ht
            · obtain ⟨x, hx, hxt⟩ := hex
              rcases List.mem_cons.mp hx with rfl | hx
              · exact Or.inl (hxt ▸ hmem)
              · exact Or.inr ⟨x, hx, hxt⟩
        · simp only [if_neg hmem]
          constructor
          · rintro (ht | hex)
            · rcases List.mem_append.mp ht with ht | ht
              · exact Or.inl ht
              · refine Or.inr ⟨e, List.mem_cons_self _ _, ?_⟩
                exact (List.mem_singleton.mp ht).symm
            · obtain ⟨x, hx, hxt⟩ := hex
              exact Or.inr ⟨x, List.mem_cons_of_mem _ hx, hxt⟩
          · rintro (ht | hex)
            · exact Or.inl (List.mem_append.mpr (Or.inl ht))
            · obtain ⟨x, hx, hxt⟩ := hex
              rcases List.mem_cons.mp hx with rfl | hx
              · exact Or.inl (List.mem_append.mpr (Or.inr (by simp [hxt])))
              · exact Or.inr ⟨x, hx, hxt⟩

lemma discoverLoop_err (annDict : List (String × Path)) :
    ∀ (entries : List (String × Path)) (recAcc : List Record)
      (taskAcc : List String),
    (∀ e ∈ entries, ∃ ap, lookupDict annDict e.1 = some ap ∧ ap.stem = e.2.stem) →
    (∃ e ∈ entries, ¬ strStartsWith (taskNameOf e.2) ("task_") = true) →
    ∃ t p, discoverLoop annDict entries recAcc taskAcc =
        Except.error (DatasetBuildError.invalidTaskName t p) ∧
      strStartsWith (taskNameOf p) ("task_") = false ∧ taskNameOf p = t ∧
      p ∈ entries.map Prod.snd := by
  intro entries
  induction entries with
  | nil =>
      intro recAcc taskAcc _ hex
      simp at hex
  | cons e rest ih =>
      intro recAcc taskAcc hlook hex
      obtain ⟨ap, hl, hst⟩ := hlook e (List.mem_cons_self _ _)
      simp only [discoverLoop, hl]
      rw [if_neg (by simp [hst])]
      by_cases he : strStartsWith (taskNameOf e.2) ("task_") = true
      · rw [if_neg (by simp [he])]
        have hex' : ∃ x ∈ rest, ¬ strStartsWith (taskNameOf x.2) ("task_") = true := by
          obtain ⟨x, hx, hnx⟩ := hex
          rcases List.mem_cons.mp hx with rfl | hx
          · exact absurd he hnx
          · exact ⟨x, hx, hnx⟩
        obtain ⟨t, p, hres, hb, ht, hp⟩ := ih _ _
          (fun x hx => hlook x (List.mem_cons_of_mem _ hx)) hex'
        exact ⟨t, p, hres, hb, ht, by
          rw [List.map_cons]
          exact List.mem_cons_of_mem _ hp⟩
      · rw [if_pos (by simpa using he)]
        refine ⟨taskNameOf e.2, e.2, rfl, ?_, rfl, by simp⟩
        simpa using he

/-- Claim C7 (amended): discovery aborts with a `DatasetBuildError`
reporting the offending name groups whenever either population (with its
uniform `pv.get_files` extension) contains duplicate stems — including the
same stem under two different tasks — and aborts reporting the two missing
stem sets whenever the stem sets differ; when neither violation occurs
*and every recovered task name is valid* it returns exactly one `Record`
per matched stem pair (and nothing otherwise: discovery is
all-or-nothing). -/
theorem discovery_duplicate_and_mismatch :
    (∀ image_paths annotation_paths : List Path,
      (∀ p ∈ image_paths, suffixOfName (Path.name p) = (".png")) →
      ¬ (image_paths.map Path.stem).Nodup →
      records_from_cvat_raw image_paths annotation_paths =
        Except.error (DatasetBuildError.duplicateImages
          (find_duplicate_filenames image_paths)) ∧
      ¬ find_duplicate_filenames image_paths = []) ∧
    (∀ image_paths annotation_paths : List Path,
      (∀ p ∈ annotation_paths, suffixOfName (Path.name p) = (".xml")) →
      (image_paths.map Path.stem).Nodup →
      ¬ (annotation_paths.map Path.stem).Nodup →
      records_from_cvat_raw image_paths annotation_paths =
        Except.error (DatasetBuildError.duplicateAnnotations
          (find_duplicate_filenames annotation_paths)) ∧
      ¬ find_duplicate_filenames annotation_paths = []) ∧
    (∀ image_paths annotation_paths : List Path,
      (image_paths.map Path.stem).Nodup →
      (annotation_paths.map Path.stem).Nodup →
      ¬ (image_paths.map Path.stem).toFinset
          = (annotation_paths.map Path.stem).toFinset →
      records_from_cvat_raw image_paths annotation_paths =
        Except.error (DatasetBuildError.mismatchedStems
          ((annotation_paths.map Path.stem).toFinset
            \ (image_paths.map Path.stem).toFinset)
          ((image_paths.map Path.stem).toFinset
            \ (annotation_paths.map Path.stem).toFinset))) ∧
    (∀ image_paths annotation_paths : List Path,
      (image_paths.map Path.stem).Nodup →
      (annotation_paths.map Path.stem).Nodup →
      (image_paths.map Path.stem).toFinset
          = (annotation_paths.map Path.stem).toFinset →
      (∀ p ∈ image_paths, strStartsWith (taskNameOf p) ("task_") = true) →
      ∃ records tasks,
        records_from_cvat_raw image_paths annotation_paths =
          Except.ok (records, tasks) ∧
        records.map Record.image_path = image_paths ∧
        ∀ r ∈ records, r.annotation_path ∈ annotation_paths ∧
          r.annotation_path.stem = r.image_path.stem) := by
  have hdupfire : ∀ (image_paths annotation_paths : List Path),
      ¬ find_duplicate_filenames image_paths = [] →
      records_from_cvat_raw image_paths annotation_paths =
        Except.error (DatasetBuildError.duplicateImages
          (find_duplicate_filenames image_paths)) := by
    intro imgs anns hdup
    unfold records_from_cvat_raw
    rw [if_pos hdup]
  have hdup2fire : ∀ (image_paths annotation_paths : List Path),
      find_duplicate_filenames image_paths = [] →
      ¬ find_duplicate_filenames annotation_paths = [] →
      records_from_cvat_raw image_paths annotation_paths =
        Except.error (DatasetBuildError.duplicateAnnotations
          (find_duplicate_filenames annotation_paths)) := by
    intro imgs anns h1 hdup
    unfold records_from_cvat_raw
    rw [if_neg (by simpa using h1), if_pos hdup]
  refine ⟨?_, ?_, ?_, ?_⟩
  · intro imgs anns hsuf hdupstem
    have hnames : ¬ (imgs.map Path.name).Nodup := by
      intro hnd
      exact hdupstem (stems_nodup_of_names_nodup hsuf hnd)
    have hdup : ¬ find_duplicate_filenames imgs = [] := by
      intro hnil
      exact hnames ((find_duplicate_filenames_eq_nil_iff imgs).mp hnil)
    exact ⟨hdupfire imgs anns hdup, hdup⟩
  · intro imgs anns hsuf hnodup hdupstem
    have h1 : find_duplicate_filenames imgs = [] :=
      (find_duplicate_filenames_eq_nil_iff imgs).mpr
        (names_nodup_of_stems_nodup hnodup)
    have hnames : ¬ (anns.map Path.name).Nodup := by
      intro hnd
      exact hdupstem (stems_nodup_of_names_nodup hsuf hnd)
    have hdup : ¬ find_duplicate_filenames anns = [] := by
      intro hnil
      exact hnames ((find_duplicate_filenames_eq_nil_iff anns).mp hnil)
    exact ⟨hdup2fire imgs anns h1 hdup, hdup⟩
  · intro imgs anns hnd1 hnd2 hne
    have h1 : find_duplicate_filenames imgs = [] :=
      (find_duplicate_filenames_eq_nil_iff imgs).mpr
        (names_nodup_of_stems_nodup hnd1)
    have h2 : find_duplicate_filenames anns = [] :=
      (find_duplicate_filenames_eq_nil_iff anns).mpr
        (names_nodup_of_stems_nodup hnd2)
    have hk1 : dictKeys (stemDict imgs) = imgs.map Path.stem := by
      rw [stemDict_of_nodup hnd1]
      simp [dictKeys]
    have hk2 : dictKeys (stemDict anns) = anns.map Path.stem := by
      rw [stemDict_of_nodup hnd2]
      simp [dictKeys]
    unfold records_from_cvat_raw
    rw [if_neg (by simpa using h1), if_neg (by simpa using h2),
      if_pos (by rw [hk1, hk2]; exact hne), hk1, hk2]
  · intro imgs anns hnd1 hnd2 heq htasks
    have h1 : find_duplicate_filenames imgs = [] :=
      (find_duplicate_filenames_eq_nil_iff imgs).mpr
        (names_nodup_of_stems_nodup hnd1)
    have h2 : find_duplicate_filenames anns = [] :=
      (find_duplicate_filenames_eq_nil_iff anns).mpr
        (names_nodup_of_stems_nodup hnd2)
    have hk1 : dictKeys (stemDict imgs) = imgs.map Path.stem := by
      rw [stemDict_of_nodup hnd1]
      simp [dictKeys]
    have hk2 : dictKeys (stemDict anns) = anns.map Path.stem := by
      rw [stemDict_of_nodup hnd2]
      simp [dictKeys]
    have hlook : ∀ e ∈ stemDict imgs,
        ∃ ap, lookupDict (stemDict anns) e.1 = some ap ∧ ap.stem = e.2.stem := by
      rw [stemDict_of_nodup hnd1, stemDict_of_nodup hnd2]
      intro e he
      obtain ⟨p, hp, rfl⟩ := List.mem_map.mp he
      have hs : p.stem ∈ anns.map Path.stem := by
        have : p.stem ∈ (imgs.map Path.stem).toFinset := by
          simp only [List.mem_toFinset]
          exact List.mem_map.mpr ⟨p, hp, rfl⟩
        rw [heq] at this
        simpa using this
      obtain ⟨ap, hl, hst, _⟩ := lookup_stemMap hs
      exact ⟨ap, hl, hst⟩
    have htask' : ∀ e ∈ stemDict imgs,
        strStartsWith (taskNameOf e.2) ("task_") = true := by
      rw [stemDict_of_nodup hnd1]
      intro e he
      obtain ⟨p, hp, rfl⟩ := List.mem_map.mp he
      exact htasks p hp
    obtain ⟨tasks, hloop, _⟩ := discoverLoop_ok (stemDict anns)
      (stemDict imgs) [] [] hlook htask'
    refine ⟨(stemDict imgs).map
        (fun e => Record.mk e.2 (lookupDictD (stemDict anns) e.1)),
      tasks, ?_, ?_, ?_⟩
    · unfold records_from_cvat_raw
      rw [if_neg (by simpa using h1), if_neg (by simpa using h2),
        if_neg (by rw [hk1, hk2, heq]; simp)]
      exact hloop
    · rw [stemDict_of_nodup hnd1, List.map_map, List.map_map]
      show List.map (fun p : Path => p) imgs = imgs
      simp
    · intro r hr
      obtain ⟨e, he, rfl⟩ := List.mem_map.mp hr
      have he' := he
      rw [stemDict_of_nodup hnd1] at he'
      obtain ⟨p, hp, rfl⟩ := List.mem_map.mp he'
      have hs : p.stem ∈ anns.map Path.stem := by
        have : p.stem ∈ (imgs.map Path.stem).toFinset := by
          simp only [List.mem_toFinset]
          exact List.mem_map.mpr ⟨p, hp, rfl⟩
        rw [heq] at this
        simpa using this
      obtain ⟨ap, hl, hst, hmem⟩ := lookup_stemMap hs
      have hv : lookupDictD (stemDict anns) p.stem = ap := by
        rw [stemDict_of_nodup hnd2]
        simp [lookupDictD]
        rw [show lookupDict (anns.map fun p => (p.stem, p)) p.stem = some ap by
          rw [← stemDict_of_nodup hnd2]; exact (by rw [stemDict_of_nodup hnd2]; exact hl)]
        rfl
      constructor
      · show (Record.mk p (lookupDictD (stemDict anns) p.stem)).annotation_path ∈ anns
        rw [show (Record.mk p (lookupDictD (stemDict anns) p.stem)).annotation_path
          = lookupDictD (stemDict anns) p.stem from rfl, hv]
        exact hmem
      · show (lookupDictD (stemDict anns) p.stem).stem = p.stem
        rw [hv]
        exact hst

/-- Witness for `discovery_duplicate_and_mismatch`: a concrete valid pair
under `task_1` is discovered as one record. -/
theorem discovery_duplicate_and_mismatch_witness :
    ∃ records tasks,
      records_from_cvat_raw [Path.mk [("task_1"), ("img"), ("x.png")]]
          [Path.mk [("task_1"), ("ann"), ("x.xml")]] =
        Except.ok (records, tasks) ∧
      records.map Record.image_path = [Path.mk [("task_1"), ("img"), ("x.png")]] ∧
      ∀ r ∈ records,
        r.annotation_path ∈ [Path.mk [("task_1"), ("ann"), ("x.xml")]] ∧
        r.annotation_path.stem = r.image_path.stem :=
  discovery_duplicate_and_mismatch.2.2.2
    [Path.mk [("task_1"), ("img"), ("x.png")]]
    [Path.mk [("task_1"), ("ann"), ("x.xml")]]
    (by decide) (by decide) (by decide) (by decide)

/-- Counterexample to claim C7 as stated: a listing with no duplicate
stems and identical stem sets — neither of the claim's two violations —
on which discovery still returns no record list, because the recovered
task name `foo` fails the task-name validation. -/
theorem discovery_valid_pairs_task_cex :
    ([Path.mk [("foo"), ("bar"), ("x.png")]].map Path.stem =
      [Path.mk [("foo"), ("bar"), ("x.xml")]].map Path.stem) ∧
    find_duplicate_filenames [Path.mk [("foo"), ("bar"), ("x.png")]] = [] ∧
    find_duplicate_filenames [Path.mk [("foo"), ("bar"), ("x.xml")]] = [] ∧
    records_from_cvat_raw [Path.mk [("foo"), ("bar"), ("x.png")]]
        [Path.mk [("foo"), ("bar"), ("x.xml")]] =
      Except.error (DatasetBuildError.invalidTaskName ("foo")
        (Path.mk [("foo"), ("bar"), ("x.png")])) := by
  refine ⟨by decide, by decide, by decide, by decide⟩

/-- Claim C8: discovery recovers the owning task name of each matched pair
as the grand-parent directory component of the image path — which for the
layout `<raw_root>/task_<id>/<subdir>/<file>` is `raw_root`'s immediate
child `task_<id>`; discovery fails with an invalid-task-name error whenever
a recovered component does not start with `task_`, and on success the task
set is exactly the set of distinct recovered task names. -/
theorem discovery_task_recovery :
    (∀ (root : List String) (child sub fname : String),
      taskNameOf (Path.mk (root ++ [child, sub, fname])) = child) ∧
    (∀ image_paths annotation_paths : List Path,
      (image_paths.map Path.stem).Nodup →
      (annotation_paths.map Path.stem).Nodup →
      (image_paths.map Path.stem).toFinset
          = (annotation_paths.map Path.stem).toFinset →
      ((∃ p ∈ image_paths, ¬ strStartsWith (taskNameOf p) ("task_") = true) →
        ∃ t p, records_from_cvat_raw image_paths annotation_paths =
            Except.error (DatasetBuildError.invalidTaskName t p) ∧
          strStartsWith (taskNameOf p) ("task_") = false ∧ taskNameOf p = t ∧
          p ∈ image_paths) ∧
      ((∀ p ∈ image_paths, strStartsWith (taskNameOf p) ("task_") = true) →
        ∃ records tasks,
          records_from_cvat_raw image_paths annotation_paths =
            Except.ok (records, tasks) ∧
          (∀ t, t ∈ tasks ↔ ∃ p ∈ image_paths, taskNameOf p = t))) := by
  constructor
  · intro root child sub fname
    unfold taskNameOf Path.parent Path.name
    simp only []
    have h1 : (root ++ [child, sub, fname]).dropLast = root ++ [child, sub] := by
      rw [show root ++ [child, sub, fname] = (root ++ [child, sub]) ++ [fname] by
        simp [List.append_assoc]]
      exact List.dropLast_concat
    have h2 : (root ++ [child, sub]).dropLast = root ++ [child] := by
      rw [show root ++ [child, sub] = (root ++ [child]) ++ [sub] by
        simp [List.append_assoc]]
      exact List.dropLast_concat
    rw [h1, h2]
    simp [List.getLastD_concat]
  · intro imgs anns hnd1 hnd2 heq
    have h1 : find_duplicate_filenames imgs = [] :=
      (find_duplicate_filenames_eq_nil_iff imgs).mpr
        (names_nodup_of_stems_nodup hnd1)
    have h2 : find_duplicate_filenames anns = [] :=
      (find_duplicate_filenames_eq_nil_iff anns).mpr
        (names_nodup_of_stems_nodup hnd2)
    have hk1 : dictKeys (stemDict imgs) = imgs.map Path.stem := by
      rw [stemDict_of_nodup hnd1]
      simp [dictKeys]
    have hk2 : dictKeys (stemDict anns) = anns.map Path.stem := by
      rw [stemDict_of_nodup hnd2]
      simp [dictKeys]
    have hred : records_from_cvat_raw imgs anns =
        discoverLoop (stemDict anns) (stemDict imgs) [] [] := by
      unfold records_from_cvat_raw
      rw [if_neg (by simpa using h1), if_neg (by simpa using h2),
        if_neg (by rw [hk1, hk2, heq]; simp)]
    have hlook : ∀ e ∈ stemDict imgs,
        ∃ ap, lookupDict (stemDict anns) e.1 = some ap ∧ ap.stem = e.2.stem := by
      rw [stemDict_of_nodup hnd1, stemDict_of_nodup hnd2]
      intro e he
      obtain ⟨p, hp, rfl⟩ := List.mem_map.mp he
      have hs : p.stem ∈ anns.map Path.stem := by
        have hmem : p.stem ∈ (imgs.map Path.stem).toFinset := by
          simp only [List.mem_toFinset]
          exact List.mem_map.mpr ⟨p, hp, rfl⟩
        rw [heq] at hmem
        simpa using hmem
      obtain ⟨ap, hl, hst, _⟩ := lookup_stemMap hs
      exact ⟨ap, hl, hst⟩
    constructor
    · intro hex
      have hex' : ∃ e ∈ stemDict imgs,
          ¬ strStartsWith (taskNameOf e.2) ("task_") = true := by
        rw [stemDict_of_nodup hnd1]
        obtain ⟨p, hp, hnp⟩ := hex
        exact ⟨(p.stem, p), List.mem_map.mpr ⟨p, hp, rfl⟩, hnp⟩
      obtain ⟨t, p, hres, hb, ht, hp⟩ :=
        discoverLoop_err (stemDict anns) (stemDict imgs) [] [] hlook hex'
      refine ⟨t, p, by rw [hred]; exact hres, hb, ht, ?_⟩
      rw [stemDict_of_nodup hnd1, List.map_map] at hp
      obtain ⟨q, hq, rfl⟩ := List.mem_map.mp hp
      exact hq
    · intro htasks
      have htask' : ∀ e ∈ stemDict imgs,
          strStartsWith (taskNameOf e.2) ("task_") = true := by
        rw [stemDict_of_nodup hnd1]
        intro e he
        obtain ⟨p, hp, rfl⟩ := List.mem_map.mp he
        exact htasks p hp
      obtain ⟨tasks, hloop, htaskmem⟩ := discoverLoop_ok (stemDict anns)
        (stemDict imgs) [] [] hlook htask'
      refine ⟨_, tasks, by rw [hred]; exact hloop, ?_⟩
      intro t
      rw [htaskmem t]
      rw [stemDict_of_nodup hnd1]
      constructor
      · rintro (habs | hex)
        · simp at habs
        · obtain ⟨e, he, het⟩ := hex
          obtain ⟨p, hp, rfl⟩ := List.mem_map.mp he
          exact ⟨p, hp, het⟩
      · rintro ⟨p, hp, hpt⟩
        exact Or.inr ⟨(p.stem, p), List.mem_map.mpr ⟨p, hp, rfl⟩, hpt⟩

/-- Witness for `discovery_task_recovery`: the failure half at a concrete
listing whose grand-parent component is `foo`. -/
theorem discovery_task_recovery_witness :
    ∃ t p, records_from_cvat_raw [Path.mk [("foo"), ("bar"), ("y.png")]]
        [Path.mk [("foo"), ("bar"), ("y.xml")]] =
          Except.error (DatasetBuildError.invalidTaskName t p) ∧
      strStartsWith (taskNameOf p) ("task_") = false ∧ taskNameOf p = t ∧
      p ∈ [Path.mk [("foo"), ("bar"), ("y.png")]] :=
  ((discovery_task_recovery.2 [Path.mk [("foo"), ("bar"), ("y.png")]]
    [Path.mk [("foo"), ("bar"), ("y.xml")]]
    (by decide) (by decide) (by decide)).1)
    ⟨Path.mk [("foo"), ("bar"), ("y.png")], by decide, by decide⟩

lemma planLoop_ok (layout : DatasetLayout)
    (splitter : Record → Except DatasetBuildError DatasetSplit) :
    ∀ records : List Record,
    (∀ r ∈ records, ∃ s, splitter r = Except.ok s) →
    ∃ copies, planLoop layout splitter records = Except.ok copies ∧
      copies.length = records.length ∧
      ∀ i (hi : i < records.length), ∃ s,
        splitter (records.get ⟨i, hi⟩) = Except.ok s ∧
        copies.get? i = some (mkRecordPlan layout s (records.get ⟨i, hi⟩)) := by
  intro records
  induction records with
  | nil =>
      intro _
      exact ⟨[], rfl, rfl, fun i hi => absurd hi (by simp)⟩
  | cons r rest ih =>
      intro hok
      obtain ⟨s, hs⟩ := hok r (List.mem_cons_self _ _)
      obtain ⟨copies, hp, hlen, hidx⟩ :=
        ih (fun x hx => hok x (List.mem_cons_of_mem _ hx))
      refine ⟨mkRecordPlan layout s r :: copies, ?_, by simp [hlen], ?_⟩
      · simp only [planLoop, hs, hp]
      · intro i hi
        cases i with
        | zero => exact ⟨s, hs, rfl⟩
        | succ n =>
            have hn : n < rest.length := by simpa using hi
            obtain ⟨s', hs', hc⟩ := hidx n hn
            exact ⟨s', hs', hc⟩

lemma planLoop_err (layout : DatasetLayout)
    (splitter : Record → Except DatasetBuildError DatasetSplit) :
    ∀ (pre : List Record) (r : Record) (post : List Record)
      (e : DatasetBuildError),
    (∀ q ∈ pre, ∃ s, splitter q = Except.ok s) →
    splitter r = Except.error e →
    planLoop layout splitter (pre ++ r :: post) = Except.error e := by
  intro pre
  induction pre with
  | nil =>
      intro r post e _ hr
      simp [planLoop, hr]
  | cons q pre' ih =>
      intro r post e hok hr
      obtain ⟨s, hs⟩ := hok q (List.mem_cons_self _ _)
      have hih : planLoop layout splitter (pre'.append (r :: post)) =
          Except.error e :=
        ih r post e (fun x hx => hok x (List.mem_cons_of_mem _ hx)) hr
      simp only [List.cons_append, planLoop, hs, hih]

/-- Claim C9 (amended): for every record list with pairwise-distinct
records (equivalently, no two identical `RecordPlan`s arise),
`plan_dataset` returns a plan with exactly one `RecordPlan` per input
record, in input order, whose stem and source paths are the record's,
whose destinations are `layout.records / <source file name>`, and whose
split is the splitter's result; the plan list has no duplicates; any
splitter failure propagates unchanged. With duplicated records the
duplicate-plan assertion aborts planning instead. Planning is a pure
function of its arguments (no filesystem access). -/
theorem plan_dataset_spec :
    (∀ (records : List Record) (tasks : List String)
        (layout : DatasetLayout)
        (splitter : Record → Except DatasetBuildError DatasetSplit),
      (∀ r ∈ records, ∃ s, splitter r = Except.ok s) →
      records.Nodup →
      ∃ plan, plan_dataset records tasks layout splitter = Except.ok plan ∧
        plan.layout = layout ∧ plan.tasks = tasks ∧
        plan.record_copies.length = records.length ∧
        (∀ i (hi : i < records.length), ∃ s,
          splitter (records.get ⟨i, hi⟩) = Except.ok s ∧
          plan.record_copies.get? i = some
            (RecordPlan.mk (records.get ⟨i, hi⟩).stem
              (records.get ⟨i, hi⟩).image_path
              (records.get ⟨i, hi⟩).annotation_path
              (pathJoin (DatasetLayout.records layout)
                (records.get ⟨i, hi⟩).image_path.name)
              (pathJoin (DatasetLayout.records layout)
                (records.get ⟨i, hi⟩).annotation_path.name)
              s)) ∧
        plan.record_copies.Nodup) ∧
    (∀ (records : List Record) (tasks : List String)
        (layout : DatasetLayout)
        (splitter : Record → Except DatasetBuildError DatasetSplit)
        (pre : List Record) (r : Record) (post : List Record)
        (e : DatasetBuildError),
      records = pre ++ r :: post →
      (∀ q ∈ pre, ∃ s, splitter q = Except.ok s) →
      splitter r = Except.error e →
      plan_dataset records tasks layout splitter = Except.error e) := by
  constructor
  · intro records tasks layout splitter hok hnd
    obtain ⟨copies, hp, hlen, hidx⟩ := planLoop_ok layout splitter records hok
    have hcnd : copies.Nodup := by
      rw [List.nodup_iff_injective_get]
      intro i j hij
      have hi' : (i : Nat) < records.length := by rw [← hlen]; exact i.isLt
      have hj' : (j : Nat) < records.length := by rw [← hlen]; exact j.isLt
      obtain ⟨si, hsi, hci⟩ := hidx i hi'
      obtain ⟨sj, hsj, hcj⟩ := hidx j hj'
      rw [List.get?_eq_get i.isLt] at hci
      rw [List.get?_eq_get j.isLt] at hcj
      have hgi := Option.some_inj.mp hci
      have hgj := Option.some_inj.mp hcj
      have hplans : mkRecordPlan layout si (records.get ⟨i, hi'⟩)
          = mkRecordPlan layout sj (records.get ⟨j, hj'⟩) := by
        rw [← hgi, ← hgj, hij]
      have hrecs : records.get ⟨i, hi'⟩ = records.get ⟨j, hj'⟩ := by
        have h1 := congrArg RecordPlan.src_image hplans
        have h2 := congrArg RecordPlan.src_annot hplans
        simp only [mkRecordPlan] at h1 h2
        cases hr1 : records.get ⟨i, hi'⟩
        cases hr2 : records.get ⟨j, hj'⟩
        rw [hr1, hr2] at h1 h2
        simp only [Record.mk.injEq]
        exact ⟨h1, h2⟩
      have hinj := (List.nodup_iff_injective_get.mp hnd) hrecs
      have : (i : Nat) = (j : Nat) := by
        have := congrArg Fin.val hinj
        simpa using this
      exact Fin.ext this
    refine ⟨DatasetPlan.mk layout tasks copies, ?_, rfl, rfl, hlen, hidx, hcnd⟩
    unfold plan_dataset
    rw [hp]
    show (if copies.length = copies.dedup.length then
        Except.ok (DatasetPlan.mk layout tasks copies)
      else Except.error DatasetBuildError.duplicatePlans) =
      Except.ok (DatasetPlan.mk layout tasks copies)
    rw [List.dedup_eq_self.mpr hcnd]
    simp
  · intro records tasks layout splitter pre r post e hrec hok hr
    subst hrec
    unfold plan_dataset
    rw [planLoop_err layout splitter pre r post e hok hr]

/-- Witness for `plan_dataset_spec` at a concrete single-record input. -/
theorem plan_dataset_spec_witness :
    ∃ plan, plan_dataset [Record.mk (Path.mk [("x.png")]) (Path.mk [("x.xml")])]
        [("task_9")] (DatasetLayout.mk (Path.mk [("repo")]))
        (fun _ => Except.ok DatasetSplit.TRAIN) = Except.ok plan ∧
      plan.layout = DatasetLayout.mk (Path.mk [("repo")]) ∧
      plan.tasks = [("task_9")] ∧
      plan.record_copies.length =
        [Record.mk (Path.mk [("x.png")]) (Path.mk [("x.xml")])].length ∧
      (∀ i (hi : i <
          [Record.mk (Path.mk [("x.png")]) (Path.mk [("x.xml")])].length), ∃ s,
        (fun _ : Record =>
            (Except.ok DatasetSplit.TRAIN : Except DatasetBuildError DatasetSplit))
            ([Record.mk (Path.mk [("x.png")]) (Path.mk [("x.xml")])].get ⟨i, hi⟩)
          = Except.ok s ∧
        plan.record_copies.get? i = some
          (RecordPlan.mk
            ([Record.mk (Path.mk [("x.png")]) (Path.mk [("x.xml")])].get
              ⟨i, hi⟩).stem
            ([Record.mk (Path.mk [("x.png")]) (Path.mk [("x.xml")])].get
              ⟨i, hi⟩).image_path
            ([Record.mk (Path.mk [("x.png")]) (Path.mk [("x.xml")])].get
              ⟨i, hi⟩).annotation_path
            (pathJoin (DatasetLayout.records
                (DatasetLayout.mk (Path.mk [("repo")])))
              ([Record.mk (Path.mk [("x.png")]) (Path.mk [("x.xml")])].get
                ⟨i, hi⟩).image_path.name)
            (pathJoin (DatasetLayout.records
                (DatasetLayout.mk (Path.mk [("repo")])))
              ([Record.mk (Path.mk [("x.png")]) (Path.mk [("x.xml")])].get
                ⟨i, hi⟩).annotation_path.name)
            s)) ∧
      plan.record_copies.Nodup :=
  plan_dataset_spec.1 [Record.mk (Path.mk [("x.png")]) (Path.mk [("x.xml")])]
    [("task_9")] (DatasetLayout.mk (Path.mk [("repo")]))
    (fun _ => Except.ok DatasetSplit.TRAIN)
    (fun r _ => ⟨DatasetSplit.TRAIN, rfl⟩) (by decide)

/-- Counterexample to claim C9 as stated: a list repeating one record,
with a splitter that succeeds on every record, on which `plan_dataset`
does not return a plan — the duplicate-plan assertion aborts it. -/
theorem plan_dataset_duplicate_cex :
    plan_dataset [Record.mk (Path.mk [("x.png")]) (Path.mk [("x.xml")]),
        Record.mk (Path.mk [("x.png")]) (Path.mk [("x.xml")])]
      [] (DatasetLayout.mk (Path.mk [("repo")]))
      (fun _ => Except.ok DatasetSplit.TRAIN) =
    Except.error DatasetBuildError.duplicatePlans := by
  decide

lemma plan_dataset_ok_layout {records : List Record} {tasks : List String}
    {layout : DatasetLayout}
    {splitter : Record → Except DatasetBuildError DatasetSplit}
    {plan : DatasetPlan}
    (h : plan_dataset records tasks layout splitter = Except.ok plan) :
    plan.layout = layout := by
  unfold plan_dataset at h
  cases hp : planLoop layout splitter records with
  | error e => rw [hp] at h; cases h
  | ok copies =>
      rw [hp] at h
      replace h : (if copies.length = copies.dedup.length then
          Except.ok (DatasetPlan.mk layout tasks copies)
        else Except.error DatasetBuildError.duplicatePlans) = Except.ok plan := h
      split_ifs at h with hc
      · injection h with h2
        rw [← h2]

/-- Claim C6: `build_dataset` fails fast — before discovery, planning or
any write (an error result carries no `ExecutedBuild`) — whenever the
canonical directory exists non-empty; when the canonical directory is
absent it runs discover → plan → execute and returns the canonical path.
BUT when the canonical directory exists and is *empty*, the emptiness
check passes and execution then fails at
`plan.layout.canonical.mkdir(parents=True)` (no `exist_ok`), a
`FileExistsError` — the code contradicts the intent of
`_ensure_empty_directory`, which deliberately admits the empty-existing
directory. -/
theorem build_dataset_empty_dir_behavior :
    (∀ (fs : RawFileSystem) (layout : DatasetLayout)
        (splitter : Record → Except DatasetBuildError DatasetSplit)
        (entries : List String),
      fs.canonicalDir = some entries → ¬ entries = [] →
      build_dataset fs layout splitter =
        Except.error (DatasetBuildError.nonEmptyDirectory
          (DatasetLayout.canonical layout))) ∧
    (∀ (fs : RawFileSystem) (layout : DatasetLayout)
        (splitter : Record → Except DatasetBuildError DatasetSplit)
        (records : List Record) (tasks : List String) (plan : DatasetPlan),
      fs.canonicalDir = none →
      records_from_cvat_raw fs.imagePaths fs.annotationPaths =
        Except.ok (records, tasks) →
      plan_dataset records tasks layout splitter = Except.ok plan →
      ∃ out, build_dataset fs layout splitter = Except.ok out ∧
        out.canonical = DatasetLayout.canonical layout) ∧
    (∀ (layout : DatasetLayout)
        (splitter : Record → Except DatasetBuildError DatasetSplit),
      build_dataset (RawFileSystem.mk (some []) [] []) layout splitter =
        Except.error (DatasetBuildError.fileExistsError
          (DatasetLayout.canonical layout))) := by
  refine ⟨?_, ?_, ?_⟩
  · intro fs layout splitter entries hdir hne
    simp [build_dataset, ensure_empty_directory, hdir, hne]
  · intro fs layout splitter records tasks plan hdir hdisc hplan
    simp only [build_dataset, ensure_empty_directory, execute_dataset_plan,
      hdir, hdisc, hplan, Option.isSome, Bool.false_eq_true, if_false]
    refine ⟨_, rfl, ?_⟩
    show DatasetLayout.canonical plan.layout = DatasetLayout.canonical layout
    rw [plan_dataset_ok_layout hplan]
  · intro layout splitter
    have hdisc : records_from_cvat_raw ([] : List Path) ([] : List Path) =
        Except.ok (([] : List Record), ([] : List String)) := by decide
    have hplan : plan_dataset ([] : List Record) ([] : List String) layout
        splitter = Except.ok (DatasetPlan.mk layout [] []) := rfl
    simp only [build_dataset, ensure_empty_directory, execute_dataset_plan,
      hdisc, hplan, Option.isSome]
    rfl

/-- Witness for `build_dataset_empty_dir_behavior`: the fail-fast half at
a concrete filesystem with a populated canonical directory. -/
theorem build_dataset_empty_dir_behavior_witness :
    build_dataset (RawFileSystem.mk (some [("old.txt")]) [] [])
        (DatasetLayout.mk (Path.mk [("repo")]))
        (fun _ => Except.ok DatasetSplit.TRAIN) =
      Except.error (DatasetBuildError.nonEmptyDirectory
        (DatasetLayout.canonical (DatasetLayout.mk (Path.mk [("repo")])))) :=
  build_dataset_empty_dir_behavior.1 (RawFileSystem.mk (some [("old.txt")]) [] [])
    (DatasetLayout.mk (Path.mk [("repo")]))
    (fun _ => Except.ok DatasetSplit.TRAIN) [("old.txt")] rfl (by decide)

end Pokedata
